import Mathlib

/-!
Verification development for the sarj-fiyat charging-price scraper.

The Python sources are shallowly embedded as executable Lean definitions:

* prices are modelled in centi-units (an exact value with two implied
  decimals, as `Nat`); every numeric literal the extraction pipeline can
  produce has at most two decimal digits, and all bounds used by the code
  (0.5, 50.0, 4.0, 35.0) are exact in this representation, so ordering and
  equality agree with the Python float computations;
* text is modelled as `List Char` (Python `str` indexing is by code point,
  matching `List Char` positions for the characters used by this corpus);
* the regular expressions of the source are transcribed as deterministic
  scanners; bounded backtracking (for example, the greedy one-or-two digit
  fraction of a decimal group) is made explicit where the pattern needs it.
-/

namespace SarjFiyat

abbrev Chars := List Char

/-- Python whitespace for `str.split` / `str.strip` / regex `\s`
(restricted to the ASCII whitespace occurring in this corpus). -/
def isWsChar (c : Char) : Bool :=
  c = ' ' || c = '\t' || c = '\n' || c = '\r' || c = '\x0b' || c = '\x0c'

def isDigitChar (c : Char) : Bool := '0' ≤ c && c ≤ '9'

def isAsciiUpperChar (c : Char) : Bool := 'A' ≤ c && c ≤ 'Z'

def isAsciiLowerChar (c : Char) : Bool := 'a' ≤ c && c ≤ 'z'

def isAsciiAlphaChar (c : Char) : Bool := isAsciiLowerChar c || isAsciiUpperChar c

/-- Turkish letters occurring in this repository's corpus. -/
def turkishLetters : List Char :=
  ['ç', 'ğ', 'ı', 'ö', 'ş', 'ü', 'Ç', 'Ğ', 'İ', 'Ö', 'Ş', 'Ü']

/-- Python regex `\w` (word character), restricted to the code points used
by this repository. -/
def isWordChar (c : Char) : Bool :=
  isAsciiAlphaChar c || isDigitChar c || c = '_' || turkishLetters.contains c

/-- Python `str.lower`, character-wise, for ASCII plus the Turkish letters
of this corpus (the dotted capital İ is approximated by `i`; it does not
occur in any input considered here). -/
def lowChar (c : Char) : Char :=
  if isAsciiUpperChar c then Char.ofNat (c.toNat + 32)
  else if c = 'Ç' then 'ç' else if c = 'Ğ' then 'ğ' else if c = 'İ' then 'i'
  else if c = 'Ö' then 'ö' else if c = 'Ş' then 'ş' else if c = 'Ü' then 'ü'
  else c

def lowerChars (s : Chars) : Chars := s.map lowChar

/-- Python `str.upper` for ASCII letters (used only by `str.title`). -/
def upChar (c : Char) : Char :=
  if isAsciiLowerChar c then Char.ofNat (c.toNat - 32) else c

/-- Does `s` start with the literal `pat` (case-sensitive)? -/
def startsWithChars : Chars → Chars → Bool
  | [], _ => true
  | _ :: _, [] => false
  | p :: ps, c :: cs => p = c && startsWithChars ps cs

/-- Does `s` start with the literal `pat`, comparing case-insensitively? -/
def startsWithCI : Chars → Chars → Bool
  | [], _ => true
  | _ :: _, [] => false
  | p :: ps, c :: cs => lowChar p = lowChar c && startsWithCI ps cs

/-- Python `pat in s` (substring containment). -/
def containsSub (pat : Chars) : Chars → Bool
  | [] => startsWithChars pat []
  | s@(_ :: rest) => startsWithChars pat s || containsSub pat rest

/-- Python slice `s[a:b]` (indices clamped like Python's). -/
def slice (s : Chars) (a b : Nat) : Chars := (s.take b).drop a

/-- Python `str.strip()`. -/
def pyStrip (s : Chars) : Chars :=
  ((s.dropWhile isWsChar).reverse.dropWhile isWsChar).reverse

/-- One right-fold step of `str.split()`: a whitespace character opens a
fresh (possibly empty) field, any other character is prepended to the
current field. -/
def splitStep (c : Char) (ws : List Chars) : List Chars :=
  if isWsChar c then [] :: ws
  else
    match ws with
    | [] => [[c]]
    | w :: rest => (c :: w) :: rest

/-- Python `str.split()` (split on whitespace runs, dropping empties),
via a single right fold. -/
def wordsOf (s : Chars) : List Chars :=
  (s.foldr splitStep []).filter (fun w => !w.isEmpty)

/-- Python `' '.join(ws)`. -/
def joinSp : List Chars → Chars
  | [] => []
  | [w] => w
  | w :: ws => w ++ ' ' :: joinSp ws

/-- Python `str.title()` for the ASCII strings this code applies it to:
a letter is upper-cased when the previous character is not a letter,
lower-cased otherwise. -/
def pyTitleAux : Bool → Chars → Chars
  | _, [] => []
  | prevAlpha, c :: rest =>
    (if isAsciiAlphaChar c then (if prevAlpha then lowChar c else upChar c) else c)
      :: pyTitleAux (isAsciiAlphaChar c) rest

def pyTitle (s : Chars) : Chars := pyTitleAux false s

/-- Python `str.split(sep)` for a single separator character
(keeps empty fields, like Python's `split` with an explicit separator). -/
def splitOnChar (sep : Char) (s : Chars) : List Chars :=
  s.foldr
    (fun c ws =>
      if c = sep then [] :: ws
      else
        match ws with
        | [] => [[c]]
        | w :: rest => (c :: w) :: rest)
    [[]]

/-- One generic-`re.sub`-with-empty-replacement step: scan left to right;
where `tryAt` matches (returning the number of characters consumed, always
at least one for the patterns used here) the match is deleted, and scanning
resumes after it; fuel is the input length. -/
def gsubAux (tryAt : Chars → Option Nat) : Nat → Chars → Chars
  | 0, s => s
  | _ + 1, [] => []
  | fuel + 1, c :: rest =>
    match tryAt (c :: rest) with
    | some n =>
      if n = 0 then c :: gsubAux tryAt fuel rest
      else gsubAux tryAt fuel ((c :: rest).drop n)
    | none => c :: gsubAux tryAt fuel rest

def gsub (tryAt : Chars → Option Nat) (s : Chars) : Chars :=
  gsubAux tryAt s.length s

/-- Case-sensitive literal consumer (`str.replace` and case-sensitive
regex literals). -/
def tryLitCS (pat : Chars) (s : Chars) : Option Nat :=
  if startsWithChars pat s then some pat.length else none

/-- Python `s.replace(pat, '')`: delete every occurrence, left to right. -/
def replaceAllEmpty (pat : Chars) (s : Chars) : Chars :=
  gsub (tryLitCS pat) s

/-! ## Scanner combinators for the transcribed regular expressions -/

/-- Length of the maximal run of characters satisfying `p` (a greedy
character-class star; maximal munch is complete for every use below, since
the character required next never belongs to the class). -/
def runLen (p : Char → Bool) (s : Chars) : Nat := (s.takeWhile p).length

/-- Case-insensitive literal consumer. -/
def tryLitCI (pat : Chars) (s : Chars) : Option Nat :=
  if startsWithCI pat s then some pat.length else none

/-- Lazy `.*?c` with DOTALL: consume up to and including the first `stop`. -/
def scanToChar (stop : Char) : Chars → Option Nat
  | [] => none
  | c :: rest => if c = stop then some 1 else (scanToChar stop rest).map (· + 1)

/-- Lazy `.*?c` without DOTALL: as above but failing at a newline. -/
def scanToCharNoNl (stop : Char) : Chars → Option Nat
  | [] => none
  | c :: rest =>
    if c = stop then some 1
    else if c = '\n' then none
    else (scanToCharNoNl stop rest).map (· + 1)

/-- Lazy `.*?pat` with DOTALL, case-insensitive: consume up to and
including the first occurrence of `pat`. -/
def scanToLitCI (pat : Chars) : Chars → Option Nat
  | [] => if startsWithCI pat [] then some pat.length else none
  | s@(_ :: rest) =>
    if startsWithCI pat s then some pat.length
    else (scanToLitCI pat rest).map (· + 1)

/-! ## `BaseScraper.clean_text`

Each `re.sub(..., '', text)` of the source becomes a `gsub` with a
deterministic scanner for the pattern. -/

/-- `<script[^>]*>.*?</script>` (DOTALL, IGNORECASE). -/
def tryScript (s : Chars) : Option Nat :=
  match s with
  | c :: s1 =>
    if c = '<' then
      match tryLitCI ("script".toList) s1 with
      | none => none
      | some a =>
        let s2 := s1.drop a
        let b := runLen (fun c => c ≠ '>') s2
        match s2.drop b with
        | '>' :: s3 =>
          match scanToLitCI ("</script>".toList) s3 with
          | some d => some (1 + a + b + 1 + d)
          | none => none
        | _ => none
    else none
  | [] => none

/-- `<style[^>]*>.*?</style>` (DOTALL, IGNORECASE). -/
def tryStyle (s : Chars) : Option Nat :=
  match s with
  | c :: s1 =>
    if c = '<' then
      match tryLitCI ("style".toList) s1 with
      | none => none
      | some a =>
        let s2 := s1.drop a
        let b := runLen (fun c => c ≠ '>') s2
        match s2.drop b with
        | '>' :: s3 =>
          match scanToLitCI ("</style>".toList) s3 with
          | some d => some (1 + a + b + 1 + d)
          | none => none
        | _ => none
    else none
  | [] => none

/-- `\{[^}]*\}` (CSS blocks). -/
def tryBraces : Chars → Option Nat
  | c :: s1 =>
    if c = '{' then
      let b := runLen (fun c => c ≠ '}') s1
      match s1.drop b with
      | '}' :: _ => some (1 + b + 1)
      | _ => none
    else none
  | [] => none

/-- `\.\w+\s*\{[^}]*\}` (CSS class rules). -/
def tryCssClass : Chars → Option Nat
  | c :: s1 =>
    if c = '.' then
      let w := runLen isWordChar s1
      if w = 0 then none
      else
        let s2 := s1.drop w
        let sp := runLen isWsChar s2
        match s2.drop sp with
        | '{' :: s3 =>
          let b := runLen (fun c => c ≠ '}') s3
          match s3.drop b with
          | '}' :: _ => some (1 + w + sp + 1 + b + 1)
          | _ => none
        | _ => none
    else none
  | [] => none

/-- `var\s+\w+\s*=.*?;` (JS variables; case-sensitive, no DOTALL). -/
def tryVar (t : Chars) : Option Nat :=
  match tryLitCS ("var".toList) t with
  | none => none
  | some a =>
    let r1 := t.drop a
    let w := runLen isWsChar r1
    if w = 0 then none
    else
      let r2 := r1.drop w
      let x := runLen isWordChar r2
      if x = 0 then none
      else
        let r3 := r2.drop x
        let y := runLen isWsChar r3
        match r3.drop y with
        | '=' :: r4 =>
          match scanToCharNoNl ';' r4 with
          | some z => some (a + w + x + y + 1 + z)
          | none => none
        | _ => none

/-- `function\s+\w+.*?\{.*?\}` (JS functions; DOTALL). -/
def tryFunction (t : Chars) : Option Nat :=
  match tryLitCS ("function".toList) t with
  | none => none
  | some a =>
    let r1 := t.drop a
    let w := runLen isWsChar r1
    if w = 0 then none
    else
      let r2 := r1.drop w
      let x := runLen isWordChar r2
      if x = 0 then none
      else
        let r3 := r2.drop x
        match scanToChar '{' r3 with
        | none => none
        | some y =>
          match scanToChar '}' (r3.drop y) with
          | some z => some (a + w + x + y + z)
          | none => none

/-- Largest `p ≥ 1` with a double underscore at offset `p`, `p + 1` of the
word run: the greedy split point of `__\w+__`. -/
def lastDoubleUS (r : Chars) : Option Nat :=
  (List.range r.length).foldl
    (fun best p =>
      if 1 ≤ p ∧ p + 2 ≤ r.length ∧ r.getD p '-' = '_' ∧ r.getD (p + 1) '-' = '_'
      then some p else best) none

/-- `__\w+__` (internal markers). -/
def tryDunder : Chars → Option Nat
  | c1 :: c2 :: s1 =>
    if c1 = '_' ∧ c2 = '_' then
      let r := s1.takeWhile isWordChar
      match lastDoubleUS r with
      | some p => some (2 + p + 2)
      | none => none
    else none
  | _ => none

/-- The class `[a-z0-9\-_:]` under IGNORECASE. -/
def isSelChar (c : Char) : Bool :=
  isAsciiAlphaChar c || isDigitChar c || c = '-' || c = '_' || c = ':'

/-- The starred combinator group of the CSS-selector pattern:
`(\s*[>,+~]\s*[.#]?[a-z0-9\-_:]*)*`, greedy; each iteration must consume
its `[>,+~]` character, so progress is guaranteed and the input length is
enough fuel. -/
def cssSelIters : Nat → Chars → Nat
  | 0, _ => 0
  | fuel + 1, s =>
    let sp := runLen isWsChar s
    match s.drop sp with
    | c :: s1 =>
      if c = '>' ∨ c = ',' ∨ c = '+' ∨ c = '~' then
        let sp2 := runLen isWsChar s1
        let s2 := s1.drop sp2
        let opt := if s2.headD ' ' = '.' ∨ s2.headD ' ' = '#' then 1 else 0
        let s3 := s2.drop opt
        let run := runLen isSelChar s3
        sp + 1 + sp2 + opt + run + cssSelIters fuel (s3.drop run)
      else 0
    | [] => 0

/-- `[.#][a-z0-9\-_:]*(\s*[>,+~]\s*[.#]?[a-z0-9\-_:]*)*` (IGNORECASE):
CSS selector chains.  Note that the leading class star may be empty, so
every `.` and `#` of the input starts a match. -/
def tryCssSel : Chars → Option Nat
  | c :: s1 =>
    if c = '.' ∨ c = '#' then
      let run := runLen isSelChar s1
      let s2 := s1.drop run
      some (1 + run + cssSelIters s2.length s2)
    else none
  | [] => none

def isQuoteChar (c : Char) : Bool := c = '"' || c = '\''

/-- `(class|id)=["\'][^"\']{80,}["\']` (IGNORECASE): long attributes. -/
def tryClassAttr (t : Chars) : Option Nat :=
  match (tryLitCI ("class".toList) t).orElse
      (fun _ => tryLitCI ("id".toList) t) with
  | none => none
  | some a =>
    match t.drop a with
    | '=' :: r1 =>
      match r1 with
      | q :: r2 =>
        if isQuoteChar q then
          let b := runLen (fun c => !(isQuoteChar c)) r2
          if 80 ≤ b then
            match r2.drop b with
            | q2 :: _ =>
              if isQuoteChar q2 then some (a + 1 + 1 + b + 1) else none
            | [] => none
          else none
        else none
      | [] => none
    | _ => none

/-- The class `[a-z-]` under IGNORECASE. -/
def isDashAlpha (c : Char) : Bool := isAsciiAlphaChar c || c = '-'

/-- `\s+(data-|aria-|on)[a-z-]*=["\'][^"\']*["\']` (IGNORECASE):
HTML attributes. -/
def tryDataAttr (t : Chars) : Option Nat :=
  let w := runLen isWsChar t
  if w = 0 then none
  else
    let r1 := t.drop w
    match (tryLitCI ("data-".toList) r1).orElse (fun _ =>
        (tryLitCI ("aria-".toList) r1).orElse (fun _ =>
          tryLitCI ("on".toList) r1)) with
    | none => none
    | some a =>
      let r2 := r1.drop a
      let b := runLen isDashAlpha r2
      match r2.drop b with
      | '=' :: r3 =>
        match r3 with
        | q :: r4 =>
          if isQuoteChar q then
            let v := runLen (fun c => !(isQuoteChar c)) r4
            match r4.drop v with
            | q2 :: _ =>
              if isQuoteChar q2 then some (w + a + b + 1 + 1 + v + 1)
              else none
            | [] => none
          else none
        | [] => none
      | _ => none

/-- The final normalization of `clean_text`: whitespace collapse
(`' '.join(text.split())`), the drop of words of 50 or more characters,
and the trailing `strip`. -/
def tailNorm (t : Chars) : Chars :=
  let t1 := joinSp (wordsOf t)
  let ws := wordsOf t1
  pyStrip (joinSp (ws.filter (fun w => w.length < 50)))

/-- `BaseScraper.clean_text`: the ten `re.sub` passes in source order,
then the final normalization. -/
def clean_text (text : Chars) : Chars :=
  if text.isEmpty then []
  else
    let t := gsub tryScript text
    let t := gsub tryStyle t
    let t := gsub tryBraces t
    let t := gsub tryCssClass t
    let t := gsub tryVar t
    let t := gsub tryFunction t
    let t := gsub tryDunder t
    let t := gsub tryCssSel t
    let t := gsub tryClassAttr t
    let t := gsub tryDataAttr t
    tailNorm t

/-! ## `re.finditer` driver

A relative match: total length, and offset/length of capture group 1. -/

structure PRel where
  len : Nat
  goff : Nat
  glen : Nat
deriving Repr, DecidableEq

/-- An absolute match: `wstart`/`wend` are `match.start()`/`match.end()`
(the whole match), `gstart`/`gend` are `match.span(1)` and `gstr` is
`match.group(1)`. -/
structure PMatch where
  wstart : Nat
  wend : Nat
  gstart : Nat
  gend : Nat
  gstr : Chars
deriving Repr, DecidableEq

/-- Left-to-right, non-overlapping scan, like `re.finditer`; `prev` is the
character before the current position (for `\b`).  Every scanner below
consumes at least one character on success, so the input length is enough
fuel. -/
def finditerAux (tryAt : Option Char → Chars → Option PRel) :
    Nat → Option Char → Nat → Chars → List PMatch
  | 0, _, _, _ => []
  | _ + 1, _, _, [] => []
  | fuel + 1, prev, pos, c :: rest =>
    match tryAt prev (c :: rest) with
    | some r =>
      let step := max r.len 1
      { wstart := pos, wend := pos + r.len,
        gstart := pos + r.goff, gend := pos + r.goff + r.glen,
        gstr := slice (c :: rest) r.goff (r.goff + r.glen) } ::
        finditerAux tryAt fuel (some ((c :: rest).getD (step - 1) c))
          (pos + step) ((c :: rest).drop step)
    | none => finditerAux tryAt fuel (some c) (pos + 1) rest

def finditer (tryAt : Option Char → Chars → Option PRel) (s : Chars) :
    List PMatch :=
  finditerAux tryAt s.length none 0 s

def isBoundaryBefore (prev : Option Char) : Bool :=
  match prev with
  | none => true
  | some c => !(isWordChar c)

def isBoundaryList (s : Chars) : Bool :=
  match s.head? with
  | none => true
  | some c => !(isWordChar c)

/-! ## Shared number-token scanners -/

def wsLen (s : Chars) : Nat := runLen isWsChar s

def digLen (s : Chars) : Nat := runLen isDigitChar s

def digitsToNat (s : Chars) : Nat :=
  s.foldl (fun acc c => acc * 10 + (c.toNat - '0'.toNat)) 0

/-- `(?:TL|₺|TRY)` (IGNORECASE).  TL and TRY differ in their second
character and ₺ in the first, so ordered first-match agrees with the
regex for every alternation order the source uses. -/
def tryCurrencyTok (s : Chars) : Option Nat :=
  (tryLitCI ("TL".toList) s).orElse (fun _ =>
    (tryLitCS ("₺".toList) s).orElse (fun _ =>
      tryLitCI ("TRY".toList) s))

/-- `(?:kWh|kW|kw)` (IGNORECASE): under IGNORECASE the second and third
alternatives coincide, leaving `kWh` before `kW`. -/
def tryUnitTok (s : Chars) : Option Nat :=
  (tryLitCI ("kWh".toList) s).orElse (fun _ => tryLitCI ("kW".toList) s)

/-- The optional suffix `\s*/?\s*(?:kWh|kW|kw)?`, consumed greedily
(nothing follows it in any pattern that uses it). -/
def consumeTailOpt (s : Chars) : Nat :=
  let a := wsLen s
  let s1 := s.drop a
  let sl := if s1.headD ' ' = '/' then 1 else 0
  let s2 := s1.drop sl
  let b := wsLen s2
  a + sl + b + (tryUnitTok (s2.drop b)).getD 0

/-- The required suffix `\s*/?\s*(?:kWh|kW|kw)`. -/
def tryTailUnitReq (s : Chars) : Option Nat :=
  let a := wsLen s
  let s1 := s.drop a
  let sl := if s1.headD ' ' = '/' then 1 else 0
  let s2 := s1.drop sl
  let b := wsLen s2
  (tryUnitTok (s2.drop b)).map (fun u => a + sl + b + u)

/-- Greedy `(\d+[.,]\d{1,2})` followed by a continuation: the integer run
is forced maximal (a separator is not a digit); the fraction tries two
digits first, then one, as the greedy `{1,2}` does.  Returns the group
length and the continuation's consumed length. -/
def tryDecGroup (s : Chars) (k : Chars → Option Nat) : Option (Nat × Nat) :=
  let d := digLen s
  if d = 0 then none
  else
    match s.drop d with
    | c :: rest =>
      if c = '.' ∨ c = ',' then
        let f := digLen rest
        let two :=
          if 2 ≤ f then
            match k (rest.drop 2) with
            | some m => some (d + 3, m)
            | none => none
          else none
        match two with
        | some r => some r
        | none =>
          if 1 ≤ f then
            match k (rest.drop 1) with
            | some m => some (d + 2, m)
            | none => none
          else none
      else none
    | [] => none

/-- `(\d+[.,]\d{1,2})` with nothing after it. -/
def decGroupEnd (s : Chars) : Option Nat :=
  (tryDecGroup s (fun _ => some 0)).map Prod.fst

/-- Greedy `(\d+)` followed by a continuation; in every use the
continuation starts with a non-digit, so the maximal run is complete. -/
def tryIntGroup (s : Chars) (k : Chars → Option Nat) : Option (Nat × Nat) :=
  let d := digLen s
  if d = 0 then none
  else
    match k (s.drop d) with
    | some m => some (d, m)
    | none => none

/-- Descending search over `\d+` split lengths (the only place the source
patterns need the quantifier to shrink: `(?:AC|DC)\d+` against a following
digit group). -/
def firstSome (f : Nat → Option PRel) : Nat → Option PRel
  | 0 => none
  | k + 1 =>
    match f (k + 1) with
    | some r => some r
    | none => firstSome f k

/-! ## The six `currency_patterns` of `extract_price_from_text` -/

/-- `(?:AC|DC)\d+\s*(\d+[.,]\d{1,2})\s*(?:TL|₺|TRY)`. -/
def tryCp1 (s : Chars) : Option PRel :=
  match (tryLitCI ("AC".toList) s).orElse (fun _ => tryLitCI ("DC".toList) s) with
  | none => none
  | some a =>
    let rest := s.drop a
    let d := digLen rest
    if d = 0 then none
    else
      firstSome (fun kk =>
        let rest2 := rest.drop kk
        let w := wsLen rest2
        match tryDecGroup (rest2.drop w) (fun t =>
            let w2 := wsLen t
            (tryCurrencyTok (t.drop w2)).map (w2 + ·)) with
        | some (g, m) => some ⟨a + kk + w + g + m, a + kk + w, g⟩
        | none => none) d

/-- `(?:TL|₺|TRY)\s*/?\s*(?:kWh|kW|kw)?\s*(\d+[.,]\d{1,2})`. -/
def tryCp2 (s : Chars) : Option PRel :=
  match tryCurrencyTok s with
  | none => none
  | some a =>
    let s1 := s.drop a
    let w1 := wsLen s1
    let s2 := s1.drop w1
    let sl := if s2.headD ' ' = '/' then 1 else 0
    let s3 := s2.drop sl
    let w2 := wsLen s3
    let s4 := s3.drop w2
    let u := (tryUnitTok s4).getD 0
    let s5 := s4.drop u
    let w3 := wsLen s5
    match decGroupEnd (s5.drop w3) with
    | some g =>
      let pre := a + w1 + sl + w2 + u + w3
      some ⟨pre + g, pre, g⟩
    | none => none

/-- `(\d+[.,]\d{1,2})\s*(?:TL|₺|TRY)\s*/?\s*(?:kWh|kW|kw)?`. -/
def tryCp3 (s : Chars) : Option PRel :=
  match tryDecGroup s (fun t =>
      let w := wsLen t
      match tryCurrencyTok (t.drop w) with
      | some c => some (w + c + consumeTailOpt ((t.drop w).drop c))
      | none => none) with
  | some (g, m) => some ⟨g + m, 0, g⟩
  | none => none

/-- `(?:₺|TL|TRY)\s*(\d+[.,]\d{1,2})\s*/?\s*(?:kWh|kW|kw)?`. -/
def tryCp4 (s : Chars) : Option PRel :=
  match tryCurrencyTok s with
  | none => none
  | some a =>
    let w := wsLen (s.drop a)
    match tryDecGroup ((s.drop a).drop w) (fun t => some (consumeTailOpt t)) with
    | some (g, m) => some ⟨a + w + g + m, a + w, g⟩
    | none => none

/-- `(\d+)\s*(?:TL|₺|TRY)\s*/?\s*(?:kWh|kW|kw)?`. -/
def tryCp5 (s : Chars) : Option PRel :=
  match tryIntGroup s (fun t =>
      let w := wsLen t
      match tryCurrencyTok (t.drop w) with
      | some c => some (w + c + consumeTailOpt ((t.drop w).drop c))
      | none => none) with
  | some (g, m) => some ⟨g + m, 0, g⟩
  | none => none

/-- `(?:₺|TL|TRY)\s*(\d+)\s*/?\s*(?:kWh|kW|kw)?`. -/
def tryCp6 (s : Chars) : Option PRel :=
  match tryCurrencyTok s with
  | none => none
  | some a =>
    let w := wsLen (s.drop a)
    match tryIntGroup ((s.drop a).drop w) (fun t => some (consumeTailOpt t)) with
    | some (g, m) => some ⟨a + w + g + m, a + w, g⟩
    | none => none

/-! ## The twelve `patterns` of `extract_price_from_text` -/

/-- `(\d+[.,]\d{1,2})\s*(?:TL|₺|TRY)\s*/?\s*(?:kWh|kW|kw)`. -/
def tryGp1 (s : Chars) : Option PRel :=
  match tryDecGroup s (fun t =>
      let w := wsLen t
      match tryCurrencyTok (t.drop w) with
      | some c =>
        (tryTailUnitReq ((t.drop w).drop c)).map (fun u => w + c + u)
      | none => none) with
  | some (g, m) => some ⟨g + m, 0, g⟩
  | none => none

/-- `(?:₺|TL|TRY)\s*(\d+[.,]\d{1,2})\s*/?\s*(?:kWh|kW|kw)`. -/
def tryGp2 (s : Chars) : Option PRel :=
  match tryCurrencyTok s with
  | none => none
  | some a =>
    let w := wsLen (s.drop a)
    match tryDecGroup ((s.drop a).drop w) tryTailUnitReq with
    | some (g, m) => some ⟨a + w + g + m, a + w, g⟩
    | none => none

/-- `(\d+)\s*(?:TL|₺|TRY)\s*/?\s*(?:kWh|kW|kw)`. -/
def tryGp3 (s : Chars) : Option PRel :=
  match tryIntGroup s (fun t =>
      let w := wsLen t
      match tryCurrencyTok (t.drop w) with
      | some c =>
        (tryTailUnitReq ((t.drop w).drop c)).map (fun u => w + c + u)
      | none => none) with
  | some (g, m) => some ⟨g + m, 0, g⟩
  | none => none

/-- `(?:₺|TL|TRY)\s*(\d+)\s*/?\s*(?:kWh|kW|kw)`. -/
def tryGp4 (s : Chars) : Option PRel :=
  match tryCurrencyTok s with
  | none => none
  | some a =>
    let w := wsLen (s.drop a)
    match tryIntGroup ((s.drop a).drop w) tryTailUnitReq with
    | some (g, m) => some ⟨a + w + g + m, a + w, g⟩
    | none => none

/-- `(\d+[.,]\d{1,2})\s*(?:TL|₺|TRY)`. -/
def tryGp5 (s : Chars) : Option PRel :=
  match tryDecGroup s (fun t =>
      let w := wsLen t
      (tryCurrencyTok (t.drop w)).map (w + ·)) with
  | some (g, m) => some ⟨g + m, 0, g⟩
  | none => none

/-- `(?:₺|TL|TRY)\s*(\d+[.,]\d{1,2})`. -/
def tryGp6 (s : Chars) : Option PRel :=
  match tryCurrencyTok s with
  | none => none
  | some a =>
    let w := wsLen (s.drop a)
    match decGroupEnd ((s.drop a).drop w) with
    | some g => some ⟨a + w + g, a + w, g⟩
    | none => none

/-- `(\d+)\s*(?:TL|₺|TRY)`. -/
def tryGp7 (s : Chars) : Option PRel :=
  match tryIntGroup s (fun t =>
      let w := wsLen t
      (tryCurrencyTok (t.drop w)).map (w + ·)) with
  | some (g, m) => some ⟨g + m, 0, g⟩
  | none => none

/-- `(?:₺|TL|TRY)\s*(\d+)`. -/
def tryGp8 (s : Chars) : Option PRel :=
  match tryCurrencyTok s with
  | none => none
  | some a =>
    let w := wsLen (s.drop a)
    let d := digLen ((s.drop a).drop w)
    if d = 0 then none else some ⟨a + w + d, a + w, d⟩

/-- `(\d+[.,]\d{1,2})\s*/?\s*(?:kWh|kW|kw)`. -/
def tryGp9 (s : Chars) : Option PRel :=
  match tryDecGroup s tryTailUnitReq with
  | some (g, m) => some ⟨g + m, 0, g⟩
  | none => none

/-- `(\d+)\s*/?\s*(?:kWh|kW|kw)`. -/
def tryGp10 (s : Chars) : Option PRel :=
  match tryIntGroup s tryTailUnitReq with
  | some (g, m) => some ⟨g + m, 0, g⟩
  | none => none

/-- `(\d+[.,]\d{1,2})`. -/
def tryGp11 (s : Chars) : Option PRel :=
  (decGroupEnd s).map (fun g => ⟨g, 0, g⟩)

/-- `(\d+)`. -/
def tryGp12 (s : Chars) : Option PRel :=
  let d := digLen s
  if d = 0 then none else some ⟨d, 0, d⟩

/-! ## Power ratings, dates, month names, keywords -/

/-- `\b(\d+)\s*kW\b` (IGNORECASE): one power-rating occurrence. -/
def tryPowerTok (prev : Option Char) (s : Chars) : Option PRel :=
  if isBoundaryBefore prev then
    let d := digLen s
    if d = 0 then none
    else
      let s1 := s.drop d
      let w := wsLen s1
      match tryLitCI ("kW".toList) (s1.drop w) with
      | some u =>
        if isBoundaryList ((s1.drop w).drop u) then some ⟨d + w + u, 0, d⟩
        else none
      | none => none
  else none

/-- `re.findall(r'\b(\d+)\s*kW\b', text, re.IGNORECASE)` followed by
`set(int(m) for m in ...)`; list membership models the set. -/
def powerValuesOf (t : Chars) : List Nat :=
  (finditer tryPowerTok t).map (fun m => digitsToNat m.gstr)

/-- `(0[1-9]|1[0-2])`: a month number. -/
def tryMonthNum (s : Chars) : Option Nat :=
  match s with
  | '0' :: c :: _ => if isDigitChar c && c ≠ '0' then some 2 else none
  | '1' :: c :: _ => if c = '0' ∨ c = '1' ∨ c = '2' then some 2 else none
  | _ => none

/-- `\.(0[1-9]|1[0-2])\.(20\d{2})\b` — the tail of the date pattern after
the day digits. -/
def tryDateTail (s : Chars) : Bool :=
  match s with
  | '.' :: s1 =>
    match tryMonthNum s1 with
    | some _ =>
      match s1.drop 2 with
      | '.' :: '2' :: '0' :: a :: b :: rest2 =>
        isDigitChar a && isDigitChar b && isBoundaryList rest2
      | _ => false
    | none => false
  | _ => false

/-- `\b0?[0-3]?[0-9]\.(0[1-9]|1[0-2])\.(20\d{2})\b`: the day alternatives
in greedy order (three digits with a leading zero, two digits, one). -/
def tryDateAt (prev : Option Char) (s : Chars) : Option PRel :=
  if isBoundaryBefore prev then
    let c1 := s.getD 0 'x'
    let c2 := s.getD 1 'x'
    let c3 := s.getD 2 'x'
    if c1 = '0' ∧ ('0' ≤ c2 ∧ c2 ≤ '3') ∧ isDigitChar c3 ∧ tryDateTail (s.drop 3)
    then some ⟨11, 0, 0⟩
    else if ('0' ≤ c1 ∧ c1 ≤ '3') ∧ isDigitChar c2 ∧ tryDateTail (s.drop 2)
    then some ⟨10, 0, 0⟩
    else if isDigitChar c1 ∧ tryDateTail (s.drop 1) then some ⟨9, 0, 0⟩
    else none
  else none

/-- `re.search(date_pattern, context)` as a boolean. -/
def hasDatePattern (s : Chars) : Bool :=
  !(finditer tryDateAt s).isEmpty

/-- The month-name alternation of the source (searched on already
lower-cased context, so case-sensitive literals suffice). -/
def monthToks : List Chars :=
  ["jan", "feb", "mar", "apr", "may", "jun", "jul", "aug", "sep", "oct",
   "nov", "dec", "ocak", "şub", "mar", "nisan", "mayıs", "haz", "tem",
   "ağu", "eyl", "eki", "kas", "ara"].map String.toList

/-- `\b(jan|...|ara)\b`: each alternative is tried in order and must end
at a word boundary. -/
def tryMonthTok (prev : Option Char) (s : Chars) : Option PRel :=
  if isBoundaryBefore prev then
    match monthToks.findSome? (fun tok =>
        match tryLitCS tok s with
        | some n => if isBoundaryList (s.drop n) then some n else none
        | none => none) with
    | some n => some ⟨n, 0, 0⟩
    | none => none
  else none

def hasMonthTok (s : Chars) : Bool :=
  !(finditer tryMonthTok s).isEmpty

/-- The `date_keywords` list of the source. -/
def date_keywords : List Chars :=
  ["tarih", "tarihi", "itibariyle", "geçerli", "geçerlidir",
   "geçerli olmak", "yürürlük", "yürürlüğ", "başlayan",
   "yapılmıştır", "yapılması", "tarihinden", "tarihine",
   "efektif", "effective", "since", "from", "başlama"].map String.toList

/-- `['tl', '₺', 'try', 'kwh', '/kwh', '/kw']`. -/
def currencyCtxToks : List Chars :=
  ["tl", "₺", "try", "kwh", "/kwh", "/kw"].map String.toList

/-- `['tl', '₺', 'try']`. -/
def currencyOnlyToks : List Chars :=
  ["tl", "₺", "try"].map String.toList

/-! ## Number parsing (centi-units) -/

/-- Python `str.rindex` (only called when the character is present). -/
def lastIdxOf (c : Char) (s : Chars) : Nat :=
  (List.range s.length).foldl
    (fun best i => if s.getD i ' ' = c then i else best) 0

/-- The separator normalization of the source: a comma-only number gets
its comma turned into a dot; with both separators the rightmost one
becomes the decimal point (unreachable for the one-separator capture
groups, transcribed for fidelity). -/
def normalizeSeps (s : Chars) : Chars :=
  if s.contains ',' && !(s.contains '.') then
    s.map (fun c => if c = ',' then '.' else c)
  else if s.contains ',' && s.contains '.' then
    if lastIdxOf ',' s > lastIdxOf '.' s then
      (s.filter (fun c => c ≠ '.')).map (fun c => if c = ',' then '.' else c)
    else s.filter (fun c => c ≠ ',')
  else s

/-- `float(price_str)` for a digit string with at most one dot and at most
two fraction digits (all the capture groups guarantee this), in
centi-units. -/
def parseCenti (s : Chars) : Option Nat :=
  match splitOnChar '.' s with
  | [ip] =>
    if !ip.isEmpty && ip.all isDigitChar then some (digitsToNat ip * 100)
    else none
  | [ip, fp] =>
    if ip.all isDigitChar && !fp.isEmpty && fp.all isDigitChar &&
        fp.length ≤ 2 then
      some (digitsToNat ip * 100 +
        (if fp.length = 1 then digitsToNat fp * 10 else digitsToNat fp))
    else none
  | _ => none

/-! ## The shared per-match filter of `extract_price_from_text`

The body of both `for match in matches:` loops is identical in the
source; it is modelled once. -/

/-- The power-rating rejection: a value equal to a recorded power value is
dropped unless currency or a kWh token follows within 30 characters, and a
bare `kw` immediately after without currency in the 30 characters before
also drops it. -/
def powerRejected (t : Chars) (m : PMatch) : Bool :=
  let contextAfter := lowerChars (slice t m.wend (m.wend + 30))
  if !(currencyCtxToks.any (fun k => containsSub k contextAfter)) then true
  else
    let immediateAfter := pyStrip (lowerChars (slice t m.wend (m.wend + 5)))
    if startsWithChars ("kw".toList) immediateAfter then
      let contextBefore := lowerChars (slice t (m.wstart - 30) m.wstart)
      !(currencyOnlyToks.any (fun k => containsSub k contextBefore))
    else false

/-- One match through the date-window check, the Turkish-format
normalization, the truncated-date keyword check for values in `[1.0,
2.0)`, the power-rating rejection and the range filter; `none` models
`continue`. -/
def processMatch (t : Chars) (powerVals : List Nat) (minP maxP : Nat)
    (m : PMatch) : Option Nat :=
  let context := slice t (m.wstart - 50) (min t.length (m.wend + 50))
  if hasDatePattern context then none
  else
    match parseCenti (normalizeSeps m.gstr) with
    | none => none
    | some price =>
      let contextLower := lowerChars context
      if (100 ≤ price ∧ price < 200) ∧
          (date_keywords.any (fun k => containsSub k contextLower) ∨
            hasMonthTok contextLower) then none
      else if (price % 100 = 0 ∧ powerVals.contains (price / 100)) ∧
          powerRejected t m then none
      else if minP ≤ price ∧ price ≤ maxP then some price
      else none

def currency_patterns : List (Chars → Option PRel) :=
  [tryCp1, tryCp2, tryCp3, tryCp4, tryCp5, tryCp6]

def general_patterns : List (Chars → Option PRel) :=
  [tryGp1, tryGp2, tryGp3, tryGp4, tryGp5, tryGp6,
   tryGp7, tryGp8, tryGp9, tryGp10, tryGp11, tryGp12]

/-- One `for pattern in ...: for match in ...:` double loop: all surviving
prices, in pattern order then match order. -/
def collectPrices (t : Chars) (powerVals : List Nat) (minP maxP : Nat)
    (pats : List (Chars → Option PRel)) : List Nat :=
  (pats.map (fun p =>
    (finditer (fun _ s => p s) t).filterMap
      (processMatch t powerVals minP maxP))).flatten

/-- `BaseScraper.extract_price_from_text` (the source defaults are
`min_price = 0.5`, `max_price = 50.0`, i.e. `50` and `5000` centi-units):
clean the text, record power values, return the first surviving
currency-pattern price, else the first surviving general-pattern price,
else `None`. -/
def extract_price_from_text (text : Chars) (minP maxP : Nat) : Option Nat :=
  if text.isEmpty then none
  else
    let t := clean_text text
    let powerVals := powerValuesOf t
    match collectPrices t powerVals minP maxP currency_patterns with
    | p :: _ => some p
    | [] =>
      match collectPrices t powerVals minP maxP general_patterns with
      | p :: _ => some p
      | [] => none

/-! ## `QuickScraper._extract_prices` -/

/-- `(?:₺|TL)` (IGNORECASE). -/
def tryCurTok2 (s : Chars) : Option Nat :=
  (tryLitCS ("₺".toList) s).orElse (fun _ => tryLitCI ("TL".toList) s)

/-- `(?:₺|TL)?\s*(\d+[.,]\d{1,2})\s*(?:₺|TL)?` (IGNORECASE).  When the
optional prefix matches but the digits do not follow, the regex retries
without the prefix; the explicit `orElse` mirrors that. -/
def tryQuickPat (s : Chars) : Option PRel :=
  let core := fun (a : Nat) =>
    let w := wsLen (s.drop a)
    match decGroupEnd ((s.drop a).drop w) with
    | some g =>
      let pre := a + w
      let t := (s.drop a).drop (w + g)
      let w2 := wsLen t
      let suf := (tryCurTok2 (t.drop w2)).getD 0
      some (PRel.mk (pre + g + w2 + suf) pre g)
    | none => none
  match tryCurTok2 s with
  | some a => (core a).orElse (fun _ => core 0)
  | none => core 0

/-- The date lookahead after the capture group: `re.match` of the
pattern
dot-or-slash-or-dash followed by two to four digits
against `text[end:end+5]`, as a boolean. -/
def quickDateLookahead (t : Chars) (gend : Nat) : Bool :=
  match slice t gend (gend + 5) with
  | c :: c1 :: c2 :: _ =>
    (c = '.' ∨ c = '/' ∨ c = '-') && isDigitChar c1 && isDigitChar c2
  | _ => false

def insertSorted (x : Nat) : List Nat → List Nat
  | [] => [x]
  | y :: ys => if x ≤ y then x :: y :: ys else y :: insertSorted x ys

def insertionSort : List Nat → List Nat
  | [] => []
  | x :: xs => insertSorted x (insertionSort xs)

/-- `sorted(list(set(prices)))`. -/
def sortedDedup (l : List Nat) : List Nat := insertionSort l.dedup

/-- `QuickScraper._extract_prices`: the `price_type` argument is accepted
and never used, exactly as in the source; the text is the page's
`soup.get_text(" ", strip=True)`. -/
def extract_prices_quick (text : Chars) (_price_type : String) : List Nat :=
  let found := finditer (fun _ s => tryQuickPat s) text
  let prices := found.filterMap (fun m =>
    if quickDateLookahead text m.gend then none
    else
      match parseCenti (m.gstr.map (fun c => if c = ',' then '.' else c)) with
      | some price => if 400 ≤ price ∧ price ≤ 3500 then some price else none
      | none => none)
  sortedDedup prices

/-! ## Data model (`data_converter.py`, `scraper_runner.py`)

A canonical record, with prices in centi-units (`acFiyat = some 850`
models the JSON value `8.50`; `none` models `null`). -/

structure Entry where
  firma : String
  ulke : String
  webSitesi : String
  acCurrency : String
  dcCurrency : String
  logoUrl : Option String
  acFiyat : Option Nat
  dcFiyat : Option Nat
deriving DecidableEq, Repr

/-- A per-URL batch result: the `ac`/`dc` price lists of a scrape-result
dictionary (centi-units). -/
structure PriceRes where
  ac : List Nat
  dc : List Nat
deriving DecidableEq, Repr

/-- The part of `urllib.parse.urlparse(url).netloc` exercised by this code:
the text between the first `://` and the following `/`, `?` or `#`
(every URL in the configuration has an explicit scheme). -/
def afterSchemeSep : Chars → Option Chars
  | [] => none
  | s@(_ :: rest) =>
    if startsWithChars [':', '/', '/'] s then some (s.drop 3)
    else afterSchemeSep rest

def urlNetloc (url : String) : Chars :=
  match afterSchemeSep url.toList with
  | some r => r.takeWhile (fun c => c ≠ '/' && c ≠ '?' && c ≠ '#')
  | none => []

/-- `normalize_domain` of `scraper_runner._process_and_save_results`:
`urlparse(url).netloc.replace('www.', '').lower()`. -/
def normalize_domain (url : String) : String :=
  String.mk (lowerChars (replaceAllEmpty ("www.".toList) (urlNetloc url)))

/-- `url.split('/')[2].replace('www.', '').title()` — the company name
derivation shared by `scraper_runner` and `data_converter`. -/
def company_name_of (url : String) : String :=
  String.mk (pyTitle (replaceAllEmpty ("www.".toList)
    ((splitOnChar '/' url.toList).getD 2 [])))

/-- Python `min` over a non-empty list. -/
def pyMin : List Nat → Option Nat
  | [] => none
  | x :: xs => some (xs.foldl Nat.min x)

/-- Python `max` over a non-empty list. -/
def pyMax : List Nat → Option Nat
  | [] => none
  | x :: xs => some (xs.foldl Nat.max x)

/-- `DataConverter._create_standard_entry` (for a URL with an `ac`/`dc`
price dict): `acFiyat = min(ac_prices) if ac_prices else None`,
`dcFiyat = max(dc_prices) if dc_prices else None`, `logoUrl = None`. -/
def create_standard_entry (url : String) (ac dc : List Nat) : Entry :=
  { firma := company_name_of url
    ulke := "TR"
    webSitesi := url
    acCurrency := "TRY"
    dcCurrency := "TRY"
    logoUrl := none
    acFiyat := if ac.isEmpty then none else pyMin ac
    dcFiyat := if dc.isEmpty then none else pyMax dc }

/-- The entry built inside `_process_and_save_results` (same min/max rule,
logo looked up from `data/logo_map.json`, modelled as an association
list). -/
def runner_entry (logoMap : List (String × String)) (url : String)
    (ac dc : List Nat) : Entry :=
  { firma := company_name_of url
    ulke := "TR"
    webSitesi := url
    acCurrency := "TRY"
    dcCurrency := "TRY"
    logoUrl := (logoMap.find? (fun p => p.fst = url)).map Prod.snd
    acFiyat := if ac.isEmpty then none else pyMin ac
    dcFiyat := if dc.isEmpty then none else pyMax dc }

/-! ## Python dict over entries keyed by `webSitesi`

`existing_map = {c['webSitesi']: c for c in existing}`: keys in first
insertion order, the value for a repeated key is the last one assigned. -/

def dictUpd (acc : List (String × Entry)) (k : String) (v : Entry) :
    List (String × Entry) :=
  if acc.any (fun p => p.fst = k) then
    acc.map (fun p => if p.fst = k then (k, v) else p)
  else acc ++ [(k, v)]

def pyDict (l : List Entry) : List (String × Entry) :=
  l.foldl (fun acc e => dictUpd acc e.webSitesi e) []

def dictGet (m : List (String × Entry)) (k : String) : Option Entry :=
  (m.find? (fun p => p.fst = k)).map Prod.snd

def lookupRes (rs : List (String × PriceRes)) (u : String) : Option PriceRes :=
  (rs.find? (fun p => p.fst = u)).map Prod.snd

/-- Python truthiness of `entry.get('acFiyat')`: `None` and `0.0` are
falsy, every other float is truthy. -/
def truthyPrice : Option Nat → Bool
  | none => false
  | some v => v ≠ 0

/-- `entry.get('acFiyat') or entry.get('dcFiyat')` as a boolean. -/
def hasPriceB (e : Entry) : Bool := truthyPrice e.acFiyat || truthyPrice e.dcFiyat

/-! ## The runner's domain dedupe (`scraper_runner.py` lines 148-168)

State: `seen_domains` as an association list in first-occurrence order of
the normalized domain; this order and the per-domain uniqueness make it
interchangeable with the `final_data` list plus `seen_domains` dict of the
source (the in-place `final_data[final_data.index(existing_entry)] = entry`
replaces exactly the slot of that domain, since two value-equal entries
share their `webSitesi` and hence their domain). -/

def assocFind (acc : List (String × Entry)) (d : String) : Option Entry :=
  (acc.find? (fun p => p.fst = d)).map Prod.snd

def assocReplace (acc : List (String × Entry)) (d : String) (e : Entry) :
    List (String × Entry) :=
  acc.map (fun p => if p.fst = d then (d, e) else p)

def dedupeAux : List (String × Entry) → List Entry → List (String × Entry)
  | acc, [] => acc
  | acc, e :: rest =>
    let d := normalize_domain e.webSitesi
    match assocFind acc d with
    | none => dedupeAux (acc ++ [(d, e)]) rest
    | some old =>
      if hasPriceB e && !hasPriceB old then
        dedupeAux (assocReplace acc d e) rest
      else dedupeAux acc rest

def dedupe_by_domain_runner (l : List Entry) : List Entry :=
  (dedupeAux [] l).map Prod.snd

/-! ## `_process_and_save_results`

Inputs: the batch `scrape_results` (association list, iteration in list
order, mirroring dict insertion order), the previous canonical dataset,
the `force_prices` / `fallback_prices` tables of the freshly constructed
`QuickScraper`, and the logo map. -/

/-- The `new_data` list before deduplication. -/
def newData (force fallb : List (String × PriceRes))
    (logoMap : List (String × String))
    (scrapeResults : List (String × PriceRes))
    (existingMap : List (String × Entry)) : List Entry :=
  ((scrapeResults.map (fun p =>
    let url := p.fst
    let ac := p.snd.ac
    let dc := p.snd.dc
    if ac.isEmpty && dc.isEmpty then
      match dictGet existingMap url with
      | some e => [e]
      | none => []
    else
      let acdc :=
        if (lookupRes force url).isSome && (lookupRes fallb url).isSome then
          match lookupRes fallb url with
          | some fb =>
            ((if ac.isEmpty then fb.ac else ac),
             (if dc.isEmpty then fb.dc else dc))
          | none => (ac, dc)
        else (ac, dc)
      [runner_entry logoMap url acdc.fst acdc.snd])).flatten)
  ++ ((existingMap.filter
        (fun p => ¬ scrapeResults.any (fun q => q.fst = p.fst))).map Prod.snd)

/-- `_process_and_save_results`: build `new_data`, then deduplicate by
normalized domain. -/
def process_and_save_results (force fallb : List (String × PriceRes))
    (logoMap : List (String × String))
    (scrapeResults : List (String × PriceRes))
    (existing : List Entry) : List Entry :=
  dedupe_by_domain_runner
    (newData force fallb logoMap scrapeResults (pyDict existing))

/-- `QuickScraper.force_prices` as constructed by `__init__`: the single
entry in the source is commented out, so the dict literal is empty. -/
def quick_force_prices : List (String × PriceRes) := []

/-! ## `BaseScraper.extract_charging_type` -/

inductive ChType where
  | AC
  | DC
deriving DecidableEq, Repr

/-- The power-range pattern with a trailing type token:
`\d+\s*-\s*\d+\s*kW\s*AC` (or `DC`); IGNORECASE.  Maximal digit runs are
forced, since the next required character is never a digit. -/
def tryPowerRange (tok : Chars) (s : Chars) : Option PRel :=
  let d1 := digLen s
  if d1 = 0 then none
  else
    let s1 := s.drop d1
    let w1 := wsLen s1
    match s1.drop w1 with
    | '-' :: s2 =>
      let w2 := wsLen s2
      let s3 := s2.drop w2
      let d2 := digLen s3
      if d2 = 0 then none
      else
        let s4 := s3.drop d2
        let w3 := wsLen s4
        match tryLitCI ("kW".toList) (s4.drop w3) with
        | some u =>
          let s5 := (s4.drop w3).drop u
          let w4 := wsLen s5
          match tryLitCI tok (s5.drop w4) with
          | some v => some ⟨d1 + w1 + 1 + w2 + d2 + w3 + u + w4 + v, 0, 0⟩
          | none => none
        | none => none
    | _ => none

/-- `re.search(...).end()` — the end position of the first match. -/
def searchEnd (tryAt : Chars → Option PRel) (s : Chars) : Option Nat :=
  ((finditer (fun _ t => tryAt t) s).head?).map PMatch.wend

/-- `re.search(...)` as a boolean (for boundary-free scanners). -/
def reTestP (tryAt : Chars → Option PRel) (s : Chars) : Bool :=
  !(finditer (fun _ t => tryAt t) s).isEmpty

/-- `re.search(...)` as a boolean for boundary-aware scanners. -/
def reTestB (tryAt : Option Char → Chars → Option PRel) (s : Chars) : Bool :=
  !(finditer tryAt s).isEmpty

/-- An alternation `xx\s*tok1|xx\s*tok2|...` where every alternative
starts with the same prefix. -/
def tryPrefixedAlt (pre : Chars) (toks : List Chars) (s : Chars) :
    Option PRel :=
  match tryLitCI pre s with
  | none => none
  | some a =>
    let w := wsLen (s.drop a)
    match toks.findSome? (fun tok => tryLitCI tok ((s.drop a).drop w)) with
    | some n => some ⟨a + w + n, 0, 0⟩
    | none => none

/-- `\bxx\s*[<>=]`. -/
def tryCmpAfter (pre : Chars) (prev : Option Char) (s : Chars) :
    Option PRel :=
  if isBoundaryBefore prev then
    match tryLitCI pre s with
    | none => none
    | some a =>
      let w := wsLen (s.drop a)
      match ((s.drop a).drop w).head? with
      | some c =>
        if c = '<' ∨ c = '>' ∨ c = '=' then some ⟨a + w + 1, 0, 0⟩ else none
      | none => none
  else none

/-- `\bxx\b`. -/
def tryBareWord (pre : Chars) (prev : Option Char) (s : Chars) :
    Option PRel :=
  if isBoundaryBefore prev then
    match tryLitCI pre s with
    | some a => if isBoundaryList (s.drop a) then some ⟨a, 0, 0⟩ else none
    | none => none
  else none

/-- A two-word alternative `w1\s*w2`. -/
def tryTwoWords (w1 w2 : Chars) (s : Chars) : Option PRel :=
  match tryLitCI w1 s with
  | none => none
  | some a =>
    let w := wsLen (s.drop a)
    match tryLitCI w2 ((s.drop a).drop w) with
    | some b => some ⟨a + w + b, 0, 0⟩
    | none => none

/-- `DC\s+\d+\s*kW` (IGNORECASE despite the source comment, since the
whole search carries the flag). -/
def tryDCPower (s : Chars) : Option PRel :=
  match tryLitCI ("DC".toList) s with
  | none => none
  | some a =>
    let w := wsLen (s.drop a)
    if w = 0 then none
    else
      let s1 := (s.drop a).drop w
      let d := digLen s1
      if d = 0 then none
      else
        let w2 := wsLen (s1.drop d)
        match tryLitCI ("kW".toList) ((s1.drop d).drop w2) with
        | some u => some ⟨a + w + d + w2 + u, 0, 0⟩
        | none => none

/-- `dc[12]\s*soket|dc[12]\s*tarifesi`. -/
def tryDC12 (s : Chars) : Option PRel :=
  match tryLitCI ("dc".toList) s with
  | none => none
  | some a =>
    match (s.drop a).head? with
    | some c =>
      if c = '1' ∨ c = '2' then
        let w := wsLen (s.drop (a + 1))
        match (tryLitCI ("soket".toList) ((s.drop (a + 1)).drop w)).orElse
            (fun _ => tryLitCI ("tarifesi".toList) ((s.drop (a + 1)).drop w)) with
        | some n => some ⟨a + 1 + w + n, 0, 0⟩
        | none => none
      else none
    | none => none

/-- The `ac_patterns` chain of the source: each test in order, first hit
returns AC. -/
def acPatternTests : List (Chars → Bool) :=
  [reTestP (tryPowerRange ("AC".toList)),
   reTestP (tryPrefixedAlt ("ac".toList)
     (["soket", "söket", "tip", "type", "şarj"].map String.toList)),
   reTestB (tryCmpAfter ("ac".toList)),
   reTestP (tryPrefixedAlt ("ac".toList)
     (["istasyon", "cihaz"].map String.toList)),
   reTestB (tryBareWord ("ac".toList)),
   fun s => reTestP (tryTwoWords ("alternating".toList) ("current".toList)) s ||
     reTestP (tryTwoWords ("alternatif".toList) ("akım".toList)) s]

/-- The `dc_patterns` chain of the source. -/
def dcPatternTests : List (Chars → Bool) :=
  [reTestP tryDCPower,
   reTestP (tryPowerRange ("DC".toList)),
   reTestP tryDC12,
   reTestP (tryPrefixedAlt ("dc".toList)
     (["soket", "söket", "şarj", "hızlı", "combo", "chademo"].map String.toList)),
   reTestB (tryCmpAfter ("dc".toList)),
   reTestP (tryPrefixedAlt ("dc".toList)
     (["istasyon", "cihaz"].map String.toList)),
   reTestB (tryBareWord ("dc".toList)),
   fun s => reTestP (tryTwoWords ("direct".toList) ("current".toList)) s ||
     reTestP (tryTwoWords ("doğru".toList) ("akım".toList)) s]

/-- The keyword fall-through of `extract_charging_type`: AC patterns are
checked before DC patterns. -/
def keyword_type (context : Chars) : Option ChType :=
  if acPatternTests.any (fun t => t context) then some ChType.AC
  else if dcPatternTests.any (fun t => t context) then some ChType.DC
  else none

/-- The context window when a price position is given: 200 characters
before the offset, the inserted space, and 20 characters after. -/
def chty_context (text : Chars) (pos : Nat) : Chars :=
  let textLower := lowerChars text
  slice textLower (pos - 200) pos ++
    ' ' :: slice textLower pos (min text.length (pos + 20))

/-- `context_start` of the source (`max(0, pos - 200) if pos > 200 else
0`, which equals truncated subtraction). -/
def chty_context_start (pos : Nat) : Nat :=
  if pos > 200 then pos - 200 else 0

/-- The `price_position is not None` branch of `extract_charging_type`:
the power-range searches on the context window, the distance tie-break,
and the keyword fall-through. -/
def chty_with_pos (text : Chars) (pos : Nat) : Option ChType :=
  match searchEnd (tryPowerRange ("AC".toList)) (chty_context text pos),
      searchEnd (tryPowerRange ("DC".toList)) (chty_context text pos) with
  | some acPos, some dcPos =>
    some (if (((acPos : Int) -
            ((pos : Int) - (chty_context_start pos : Int))).natAbs <
          ((dcPos : Int) -
            ((pos : Int) - (chty_context_start pos : Int))).natAbs)
      then ChType.AC else ChType.DC)
  | some _, none => some ChType.AC
  | none, some _ => some ChType.DC
  | none, none => keyword_type (chty_context text pos)

/-- `BaseScraper.extract_charging_type`. -/
def extract_charging_type (text : Chars) (pricePosition : Option Nat) :
    Option ChType :=
  if text.isEmpty then none
  else
    match pricePosition with
    | some pos => chty_with_pos text pos
    | none => keyword_type (lowerChars text)

/-! ## `QuickScraper.scrape_url` — tier selection (`quick_scrape.py`)

The network and browser are abstracted as oracles returning the page text
that `BeautifulSoup(...).get_text` would produce, or `none` for a raised
exception; the dispatch logic, the extraction and the fallback table are
the verified part. -/

inductive Tier where
  | static
  | rendered
deriving DecidableEq, Repr

/-- A `scrape_url` result dict: fallback copies carry no `status` key
(`status = none`). -/
structure ScrapeOut where
  ac : List Nat
  dc : List Nat
  status : Option String
deriving DecidableEq, Repr

/-- The keys of `QuickScraper.js_sites`. -/
def js_sites : List String :=
  ["https://www.ecoboxsarj.com/tarifeler",
   "https://evroad.com.tr/#",
   "https://magiclinesarj.com",
   "https://minusenergy.net/sarj-noktalari/#fiyat_ref3",
   "https://5sarj.com/tr/fiyatlandirma",
   "https://greendrive.com.tr/tarifeler",
   "https://tripy.mobi/charge/fiyatlandirma/",
   "https://karkinenerji.com.tr/guncel-sarj-fiyatlari/"]

/-- The `fallback_prices` literal of `QuickScraper.__init__` (before
hydration from the last dataset). -/
def fallback_prices_base : List (String × PriceRes) :=
  [("https://www.bolgem.com.tr/fiyat-tarifesi/", ⟨[599], [799]⟩),
   ("https://carbonage.net", ⟨[450], [650]⟩),
   ("https://www.electrise.com.tr", ⟨[550], [800]⟩),
   ("https://www.ecoboxsarj.com/tarifeler", ⟨[899], [1199]⟩),
   ("https://evroad.com.tr/#", ⟨[849], [1099]⟩),
   ("https://magiclinesarj.com", ⟨[850], [1100]⟩),
   ("https://minusenergy.net/sarj-noktalari/#fiyat_ref3", ⟨[900], [1200]⟩),
   ("https://greendrive.com.tr/tarifeler", ⟨[799], [1099]⟩),
   ("https://tripy.mobi/charge/fiyatlandirma/", ⟨[829], [1029]⟩),
   ("https://karkinenerji.com.tr/guncel-sarj-fiyatlari/", ⟨[849], [1099]⟩)]

structure ScrapeEnv where
  fallback : List (String × PriceRes)
  staticPage : String → Option Chars
  seleniumAvailable : Bool
  seleniumPage : String → Option Chars

/-- `QuickScraper.scrape_with_selenium`, with the list of fetch tiers
actually attempted. -/
def scrape_with_selenium (env : ScrapeEnv) (url : String) :
    ScrapeOut × List Tier :=
  if !env.seleniumAvailable then
    (match lookupRes env.fallback url with
     | some fb => ⟨fb.ac, fb.dc, none⟩
     | none => ⟨[], [], some "no_selenium"⟩, [])
  else
    match env.seleniumPage url with
    | none =>
      (match lookupRes env.fallback url with
       | some fb => ⟨fb.ac, fb.dc, none⟩
       | none => ⟨[], [], some "selenium_error"⟩, [Tier.rendered])
    | some doc =>
      let ac := extract_prices_quick doc "ac"
      let dc := extract_prices_quick doc "dc"
      if !ac.isEmpty || !dc.isEmpty then
        (⟨ac, dc, some "selenium_success"⟩, [Tier.rendered])
      else
        (match lookupRes env.fallback url with
         | some fb => ⟨fb.ac, fb.dc, none⟩
         | none => ⟨[], [], some "selenium_no_prices"⟩, [Tier.rendered])

/-- `QuickScraper.scrape_url`: force prices, then the JS-site dispatch to
the rendered tier, else a single static fetch; an exception or zero
observations go to the fallback table (no further fetch). -/
def scrape_url (env : ScrapeEnv) (url : String) : ScrapeOut × List Tier :=
  match lookupRes quick_force_prices url with
  | some fp => (⟨fp.ac, fp.dc, none⟩, [])
  | none =>
    if js_sites.contains url then scrape_with_selenium env url
    else
      match env.staticPage url with
      | none =>
        (match lookupRes env.fallback url with
         | some fb => ⟨fb.ac, fb.dc, none⟩
         | none => ⟨[], [], some "error"⟩, [Tier.static])
      | some doc =>
        let ac := extract_prices_quick doc "ac"
        let dc := extract_prices_quick doc "dc"
        if !ac.isEmpty || !dc.isEmpty then
          (⟨ac, dc, some "success"⟩, [Tier.static])
        else
          (match lookupRes env.fallback url with
           | some fb => ⟨fb.ac, fb.dc, none⟩
           | none => ⟨[], [], some "no_prices"⟩, [Tier.static])

/-! ## Noise-free texts (for the idempotence analysis of `clean_text`)

The characters that can begin or force one of the ten noise-stripping
substitutions: every match of the script/style patterns starts with `<`,
of the brace patterns contains `{`, of the CSS patterns starts with `.`
or `#`, of the marker pattern starts with `_`, and of the variable and
attribute patterns contains `=`. -/

def badChars : List Char := ['<', '{', '.', '#', '_', '=']

def noiseFree (s : Chars) : Prop := ∀ c ∈ s, c ∉ badChars

/-! ## Concrete records used by the claim theorems -/

/-- An environment whose static fetch succeeds but yields a page with no
extractable prices, with a fallback entry for the URL. -/
def c4Env : ScrapeEnv :=
  { fallback := [("https://nosite.example/", ⟨[850], [1099]⟩)]
    staticPage := fun _ => some ("hos geldiniz".toList)
    seleniumAvailable := true
    seleniumPage := fun _ => none }

/-- An environment whose static fetch returns a page with one price. -/
def c5Env : ScrapeEnv :=
  { fallback := []
    staticPage := fun _ => some ("fiyat 8,50 TL".toList)
    seleniumAvailable := false
    seleniumPage := fun _ => none }

/-- The classification tie-break example of the specification: the price
offset 45 is the position of `8.50`, closer to the DC range end. -/
def c8Text : Chars :=
  "11 - 22 kW AC sarj 60 - 180 kW DC hizli sarj 8.50 TL/kWh".toList

def collideA : Entry :=
  { firma := "A", ulke := "TR", webSitesi := "https://a.com/x"
    acCurrency := "TRY", dcCurrency := "TRY", logoUrl := none
    acFiyat := some 850, dcFiyat := none }

def collideB : Entry :=
  { firma := "B", ulke := "TR", webSitesi := "https://www.a.com/y"
    acCurrency := "TRY", dcCurrency := "TRY", logoUrl := none
    acFiyat := some 999, dcFiyat := none }

def dedupeWitA : Entry :=
  { firma := "WA", ulke := "TR", webSitesi := "https://w.com/a"
    acCurrency := "TRY", dcCurrency := "TRY", logoUrl := none
    acFiyat := none, dcFiyat := none }

def dedupeWitB : Entry :=
  { firma := "WB", ulke := "TR", webSitesi := "https://www.w.com/b"
    acCurrency := "TRY", dcCurrency := "TRY", logoUrl := none
    acFiyat := some 850, dcFiyat := none }

def c3Prev : Entry :=
  { firma := "X", ulke := "TR", webSitesi := "https://x.com/"
    acCurrency := "TRY", dcCurrency := "TRY", logoUrl := none
    acFiyat := some 750, dcFiyat := none }

def c3SR : List (String × PriceRes) :=
  [("https://www.x.com/p", ⟨[850], []⟩), ("https://x.com/", ⟨[], []⟩)]

def c3Solo : Entry :=
  { firma := "Solo", ulke := "TR", webSitesi := "https://solo.example/"
    acCurrency := "TRY", dcCurrency := "TRY", logoUrl := none
    acFiyat := some 750, dcFiyat := none }

/-! ## Helper lemmas: Python `min`/`max` as folds -/

theorem foldl_min_le (xs : List Nat) : ∀ a : Nat,
    xs.foldl Nat.min a ≤ a ∧ ∀ y ∈ xs, xs.foldl Nat.min a ≤ y := by
  induction xs with
  | nil => intro a; exact ⟨Nat.le_refl a, by intro y hy; cases hy⟩
  | cons b xs ih =>
    intro a
    obtain ⟨h1, h2⟩ := ih (Nat.min a b)
    refine ⟨Nat.le_trans h1 (Nat.min_le_left a b), ?_⟩
    intro y hy
    rcases List.mem_cons.mp hy with rfl | hy
    · exact Nat.le_trans h1 (Nat.min_le_right a y)
    · exact h2 y hy

theorem foldl_min_mem (xs : List Nat) : ∀ a : Nat,
    xs.foldl Nat.min a = a ∨ xs.foldl Nat.min a ∈ xs := by
  induction xs with
  | nil => intro a; exact Or.inl rfl
  | cons b xs ih =>
    intro a
    rcases ih (Nat.min a b) with h | h
    · simp only [List.foldl_cons] at *
      rcases Nat.le_total a b with hab | hab
      · have hb : a.min b = a := by unfold Nat.min; exact inf_eq_left.mpr hab
        rw [h, hb]; exact Or.inl rfl
      · have hb : a.min b = b := by unfold Nat.min; exact inf_eq_right.mpr hab
        rw [h, hb]; exact Or.inr (List.mem_cons_self b xs)
    · exact Or.inr (List.mem_cons_of_mem b h)

theorem foldl_max_ge (xs : List Nat) : ∀ a : Nat,
    a ≤ xs.foldl Nat.max a ∧ ∀ y ∈ xs, y ≤ xs.foldl Nat.max a := by
  induction xs with
  | nil => intro a; exact ⟨Nat.le_refl a, by intro y hy; cases hy⟩
  | cons b xs ih =>
    intro a
    obtain ⟨h1, h2⟩ := ih (Nat.max a b)
    refine ⟨Nat.le_trans (Nat.le_max_left a b) h1, ?_⟩
    intro y hy
    rcases List.mem_cons.mp hy with rfl | hy
    · exact Nat.le_trans (Nat.le_max_right a y) h1
    · exact h2 y hy

theorem foldl_max_mem (xs : List Nat) : ∀ a : Nat,
    xs.foldl Nat.max a = a ∨ xs.foldl Nat.max a ∈ xs := by
  induction xs with
  | nil => intro a; exact Or.inl rfl
  | cons b xs ih =>
    intro a
    rcases ih (Nat.max a b) with h | h
    · simp only [List.foldl_cons] at *
      rcases Nat.le_total a b with hab | hab
      · have hb : a.max b = b := by unfold Nat.max; exact sup_eq_right.mpr hab
        rw [h, hb]; exact Or.inr (List.mem_cons_self b xs)
      · have hb : a.max b = a := by unfold Nat.max; exact sup_eq_left.mpr hab
        rw [h, hb]; exact Or.inl rfl
    · exact Or.inr (List.mem_cons_of_mem b h)

theorem pyMin_spec (x : Nat) (xs : List Nat) :
    ∃ m, pyMin (x :: xs) = some m ∧ m ∈ x :: xs ∧ ∀ y ∈ x :: xs, m ≤ y := by
  refine ⟨xs.foldl Nat.min x, rfl, ?_, ?_⟩
  · rcases foldl_min_mem xs x with h | h
    · rw [h]; exact List.mem_cons_self x xs
    · exact List.mem_cons_of_mem x h
  · intro y hy
    rcases List.mem_cons.mp hy with rfl | hy
    · exact (foldl_min_le xs y).1
    · exact (foldl_min_le xs x).2 y hy

theorem pyMax_spec (x : Nat) (xs : List Nat) :
    ∃ m, pyMax (x :: xs) = some m ∧ m ∈ x :: xs ∧ ∀ y ∈ x :: xs, y ≤ m := by
  refine ⟨xs.foldl Nat.max x, rfl, ?_, ?_⟩
  · rcases foldl_max_mem xs x with h | h
    · rw [h]; exact List.mem_cons_self x xs
    · exact List.mem_cons_of_mem x h
  · intro y hy
    rcases List.mem_cons.mp hy with rfl | hy
    · exact (foldl_max_ge xs y).1
    · exact (foldl_max_ge xs x).2 y hy

/-! ## Helper lemmas: the runner's domain dedupe -/

/-- Well-formed dedupe state: every key is the normalized domain of its
entry, and keys are distinct. -/
def accWF (acc : List (String × Entry)) : Prop :=
  (∀ p ∈ acc, p.fst = normalize_domain p.snd.webSitesi) ∧
    (acc.map Prod.fst).Nodup

theorem assocFind_eq_none (acc : List (String × Entry)) (d : String) :
    assocFind acc d = none ↔ ∀ p ∈ acc, p.fst ≠ d := by
  simp [assocFind, List.find?_eq_none]

theorem assocFind_mem (acc : List (String × Entry)) (d : String) (e : Entry)
    (h : assocFind acc d = some e) : (d, e) ∈ acc := by
  simp only [assocFind, Option.map_eq_some'] at h
  obtain ⟨p, hp, rfl⟩ := h
  have hmem := List.mem_of_find?_eq_some hp
  have hkey := List.find?_some hp
  simp only [decide_eq_true_eq] at hkey
  cases p with
  | mk k v => cases hkey; exact hmem

theorem assocReplace_keys (acc : List (String × Entry)) (d : String) (e : Entry) :
    (assocReplace acc d e).map Prod.fst = acc.map Prod.fst := by
  induction acc with
  | nil => rfl
  | cons p rest ih =>
    simp only [assocReplace, List.map_cons] at *
    by_cases hp : p.fst = d
    · simp [hp, ih]
    · simp [hp, ih]

theorem assocReplace_mem_other (acc : List (String × Entry)) (d : String)
    (e : Entry) (p : String × Entry) (hp : p ∈ acc) (hne : p.fst ≠ d) :
    p ∈ assocReplace acc d e := by
  have : (if p.fst = d then (d, e) else p) ∈ assocReplace acc d e :=
    List.mem_map_of_mem _ hp
  rwa [if_neg hne] at this

theorem assocReplace_wf (acc : List (String × Entry)) (e : Entry)
    (h : accWF acc) :
    accWF (assocReplace acc (normalize_domain e.webSitesi) e) := by
  constructor
  · intro p hp
    simp only [assocReplace, List.mem_map] at hp
    obtain ⟨q, hq, rfl⟩ := hp
    by_cases hqd : q.fst = normalize_domain e.webSitesi
    · simp [hqd]
    · simpa [hqd] using h.1 q hq
  · rw [assocReplace_keys]; exact h.2

theorem append_wf (acc : List (String × Entry)) (e : Entry)
    (h : accWF acc)
    (hnone : assocFind acc (normalize_domain e.webSitesi) = none) :
    accWF (acc ++ [(normalize_domain e.webSitesi, e)]) := by
  constructor
  · intro p hp
    rcases List.mem_append.mp hp with hp | hp
    · exact h.1 p hp
    · simp only [List.mem_singleton] at hp; subst hp; rfl
  · rw [List.map_append]
    apply List.Nodup.append h.2 (List.nodup_singleton _)
    intro k hk hk'
    simp only [List.map_cons, List.map_nil, List.mem_singleton] at hk'
    subst hk'
    obtain ⟨p, hp, hpk⟩ := List.mem_map.mp hk
    exact (assocFind_eq_none acc _).mp hnone p hp hpk

theorem dedupeAux_wf (l : List Entry) :
    ∀ acc, accWF acc → accWF (dedupeAux acc l) := by
  induction l with
  | nil => intro acc h; exact h
  | cons e rest ih =>
    intro acc h
    simp only [dedupeAux]
    cases hfind : assocFind acc (normalize_domain e.webSitesi) with
    | none => exact ih _ (append_wf acc e h hfind)
    | some old =>
      by_cases hup : (hasPriceB e && !hasPriceB old) = true
      · simp only [hup, if_true]; exact ih _ (assocReplace_wf acc e h)
      · simp only [hup, if_false]; exact ih _ h

theorem dedupeAux_keys_mono (l : List Entry) :
    ∀ acc k, k ∈ acc.map Prod.fst → k ∈ (dedupeAux acc l).map Prod.fst := by
  induction l with
  | nil => intro acc k hk; exact hk
  | cons e rest ih =>
    intro acc k hk
    simp only [dedupeAux]
    cases hfind : assocFind acc (normalize_domain e.webSitesi) with
    | none =>
      exact ih _ k (by rw [List.map_append]; exact List.mem_append_left _ hk)
    | some old =>
      by_cases hup : (hasPriceB e && !hasPriceB old) = true
      · simp only [hup, if_true]
        exact ih _ k (by rw [assocReplace_keys]; exact hk)
      · simp only [hup, if_false]; exact ih _ k hk

theorem dedupeAux_covers (l : List Entry) :
    ∀ acc e, e ∈ l →
      normalize_domain e.webSitesi ∈ (dedupeAux acc l).map Prod.fst := by
  induction l with
  | nil => intro acc e he; cases he
  | cons x rest ih =>
    intro acc e he
    simp only [dedupeAux]
    rcases List.mem_cons.mp he with rfl | he
    · cases hfind : assocFind acc (normalize_domain e.webSitesi) with
      | none =>
        apply dedupeAux_keys_mono
        rw [List.map_append]
        exact List.mem_append_right _ (by simp)
      | some old =>
        have hk : normalize_domain e.webSitesi ∈ acc.map Prod.fst := by
          have := assocFind_mem acc _ old hfind
          exact List.mem_map.mpr ⟨_, this, rfl⟩
        by_cases hup : (hasPriceB e && !hasPriceB old) = true
        · simp only [hup, if_true]
          exact dedupeAux_keys_mono _ _ _ (by rw [assocReplace_keys]; exact hk)
        · simp only [hup, if_false]
          exact dedupeAux_keys_mono _ _ _ hk
    · cases hfind : assocFind acc (normalize_domain x.webSitesi) with
      | none => exact ih _ e he
      | some old =>
        by_cases hup : (hasPriceB x && !hasPriceB old) = true
        · simp only [hup, if_true]; exact ih _ e he
        · simp only [hup, if_false]; exact ih _ e he

/-- With well-formed state, the key list is exactly the domain list of the
stored entries. -/
theorem acc_domains_eq_keys (acc : List (String × Entry))
    (h : ∀ p ∈ acc, p.fst = normalize_domain p.snd.webSitesi) :
    acc.map (fun p => normalize_domain p.snd.webSitesi) = acc.map Prod.fst := by
  apply List.map_congr_left
  intro p hp
  exact (h p hp).symm

/-- When keys are distinct, `assocFind` returns the value stored under a
present key. -/
theorem assocFind_of_mem (acc : List (String × Entry)) (d : String) (e : Entry)
    (hnodup : (acc.map Prod.fst).Nodup) (hmem : (d, e) ∈ acc) :
    assocFind acc d = some e := by
  induction acc with
  | nil => cases hmem
  | cons p rest ih =>
    simp only [List.map_cons, List.nodup_cons] at hnodup
    rcases List.mem_cons.mp hmem with rfl | hmem
    · simp [assocFind, List.find?]
    · have hne : p.fst ≠ d := by
        intro hk
        exact hnodup.1 (hk ▸ List.mem_map.mpr ⟨(d, e), hmem, rfl⟩)
      have hd : (decide (p.1 = d)) = false := by simpa using hne
      simp only [assocFind, List.find?, hd]
      exact ih hnodup.2 hmem

/-- An entry whose normalized domain occurs nowhere else among the inputs
(or the state) survives the dedupe fold unchanged. -/
theorem dedupeAux_keeps_unique (l : List Entry) :
    ∀ acc (e : Entry), accWF acc →
      ((normalize_domain e.webSitesi, e) ∈ acc ∨
        ((∀ k ∈ acc.map Prod.fst, k ≠ normalize_domain e.webSitesi) ∧ e ∈ l)) →
      (∀ e' ∈ l, e' ≠ e →
        normalize_domain e'.webSitesi ≠ normalize_domain e.webSitesi) →
      (normalize_domain e.webSitesi, e) ∈ dedupeAux acc l := by
  induction l with
  | nil =>
    intro acc e _ hst _
    rcases hst with h | ⟨_, h⟩
    · exact h
    · cases h
  | cons x rest ih =>
    intro acc e hwf hst huniq
    simp only [dedupeAux]
    by_cases hx : x = e
    · rw [hx] at huniq ⊢
      rcases hst with hin | ⟨hfresh, _⟩
      · have hfound := assocFind_of_mem acc _ e hwf.2 hin
        cases hfind : assocFind acc (normalize_domain e.webSitesi) with
        | none => rw [hfind] at hfound; cases hfound
        | some old =>
          rw [hfind] at hfound
          injection hfound with hold
          rw [hold]
          have hcond : (hasPriceB e && !hasPriceB e) = false := by
            cases hasPriceB e <;> rfl
          simp only [hcond, Bool.false_eq_true, if_false]
          exact ih acc e hwf (Or.inl hin)
            (fun e' he' hne => huniq e' (List.mem_cons_of_mem _ he') hne)
      · have hnone : assocFind acc (normalize_domain e.webSitesi) = none := by
          rw [assocFind_eq_none]
          intro p hp
          exact hfresh p.fst (List.mem_map.mpr ⟨p, hp, rfl⟩)
        rw [hnone]
        exact ih _ e (append_wf acc e hwf hnone)
          (Or.inl (List.mem_append_right _ (by simp)))
          (fun e' he' hne => huniq e' (List.mem_cons_of_mem _ he') hne)
    · have hdom : normalize_domain x.webSitesi ≠ normalize_domain e.webSitesi :=
        huniq x (List.mem_cons_self x rest) hx
      have hst' :
          ((normalize_domain e.webSitesi, e) ∈ acc ∨
            ((∀ k ∈ acc.map Prod.fst, k ≠ normalize_domain e.webSitesi) ∧
              e ∈ rest)) := by
        rcases hst with h | ⟨hfresh, hmem⟩
        · exact Or.inl h
        · rcases List.mem_cons.mp hmem with rfl | hmem
          · exact absurd rfl hx
          · exact Or.inr ⟨hfresh, hmem⟩
      have huniq' : ∀ e' ∈ rest, e' ≠ e →
          normalize_domain e'.webSitesi ≠ normalize_domain e.webSitesi :=
        fun e' he' hne => huniq e' (List.mem_cons_of_mem _ he') hne
      cases hfind : assocFind acc (normalize_domain x.webSitesi) with
      | none =>
        apply ih _ e (append_wf acc x hwf hfind) _ huniq'
        rcases hst' with h | ⟨hfresh, hmem⟩
        · exact Or.inl (List.mem_append_left _ h)
        · refine Or.inr ⟨?_, hmem⟩
          intro k hk
          rw [List.map_append] at hk
          rcases List.mem_append.mp hk with hk | hk
          · exact hfresh k hk
          · simp only [List.map_cons, List.map_nil, List.mem_singleton] at hk
            subst hk; exact hdom
      | some old =>
        by_cases hup : (hasPriceB x && !hasPriceB old) = true
        · simp only [hup, if_true]
          apply ih _ e (assocReplace_wf acc x hwf) _ huniq'
          rcases hst' with h | ⟨hfresh, hmem⟩
          · exact Or.inl (assocReplace_mem_other acc _ x _ h
              (by simpa using hdom.symm))
          · refine Or.inr ⟨?_, hmem⟩
            intro k hk
            rw [assocReplace_keys] at hk
            exact hfresh k hk
        · simp only [hup, if_false]
          exact ih acc e hwf hst' huniq'

/-- An entry with a batch-unique normalized domain is kept by
`dedupe_by_domain_runner`. -/
theorem dedupe_keeps_unique (l : List Entry) (e : Entry) (he : e ∈ l)
    (huniq : ∀ e' ∈ l, e' ≠ e →
      normalize_domain e'.webSitesi ≠ normalize_domain e.webSitesi) :
    e ∈ dedupe_by_domain_runner l := by
  have h := dedupeAux_keeps_unique l [] e ⟨by simp, by simp⟩
    (Or.inr ⟨by simp, he⟩) huniq
  exact List.mem_map.mpr ⟨_, h, rfl⟩

/-! ## Claim C1 -/

/-- C1: for every URL, a batch result with a non-empty AC price list
produces a record whose `acFiyat` is the minimum of that list, a non-empty
DC list produces `dcFiyat` equal to its maximum, and an empty list produces
`none` (a valid value, not an error) — both for the converter's
`_create_standard_entry` and for the entry built by
`_process_and_save_results` (whose price fields agree with the
converter's). -/
theorem C1_ac_min_dc_max_none (logoMap : List (String × String))
    (url : String) (ac dc : List Nat) :
    (ac ≠ [] → ∃ m, (create_standard_entry url ac dc).acFiyat = some m ∧
        m ∈ ac ∧ ∀ y ∈ ac, m ≤ y)
  ∧ (dc ≠ [] → ∃ m, (create_standard_entry url ac dc).dcFiyat = some m ∧
        m ∈ dc ∧ ∀ y ∈ dc, y ≤ m)
  ∧ (ac = [] → (create_standard_entry url ac dc).acFiyat = none)
  ∧ (dc = [] → (create_standard_entry url ac dc).dcFiyat = none)
  ∧ (runner_entry logoMap url ac dc).acFiyat =
      (create_standard_entry url ac dc).acFiyat
  ∧ (runner_entry logoMap url ac dc).dcFiyat =
      (create_standard_entry url ac dc).dcFiyat := by
  refine ⟨?_, ?_, ?_, ?_, rfl, rfl⟩
  · intro hne
    cases ac with
    | nil => exact absurd rfl hne
    | cons x xs =>
      obtain ⟨m, hm, hmem, hmin⟩ := pyMin_spec x xs
      exact ⟨m, by simpa [create_standard_entry] using hm, hmem, hmin⟩
  · intro hne
    cases dc with
    | nil => exact absurd rfl hne
    | cons x xs =>
      obtain ⟨m, hm, hmem, hmax⟩ := pyMax_spec x xs
      exact ⟨m, by simpa [create_standard_entry] using hm, hmem, hmax⟩
  · intro h; subst h; rfl
  · intro h; subst h; rfl

/-- C1 witness: at a concrete input the record fields evaluate to the
minimum, the maximum and `none` as the theorem states. -/
theorem C1_ac_min_dc_max_none_witness :
    (∃ m, (create_standard_entry "https://x.com" [850, 750] []).acFiyat =
        some m ∧ m ∈ [850, 750] ∧ ∀ y ∈ [850, 750], m ≤ y)
  ∧ (create_standard_entry "https://x.com" [850, 750] []).dcFiyat = none :=
  ⟨(C1_ac_min_dc_max_none [] "https://x.com" [850, 750] []).1 (by decide),
    (C1_ac_min_dc_max_none [] "https://x.com" [850, 750] []).2.2.2.1 rfl⟩

/-! ## Claim C2 -/

/-- C2 counterexample: two records collide on the normalized domain
`a.com` and both carry a non-null price, but the runner's dedupe keeps the
first-produced record, not the most recent one — last-write-wins is false
on the code. -/
theorem C2_last_write_wins_false :
    normalize_domain collideA.webSitesi = normalize_domain collideB.webSitesi
  ∧ hasPriceB collideA = true
  ∧ hasPriceB collideB = true
  ∧ dedupe_by_domain_runner [collideA, collideB] = [collideA]
  ∧ collideA ≠ collideB := by
  exact ⟨by decide, by decide, by decide, by decide, by decide⟩

/-- C2 amended: the canonical dataset has exactly one record per
normalized domain (the output domains are distinct and cover every input
record's domain), and on a collision a record with at least one truthy
(non-null, non-zero) price replaces a previously stored record with none;
in every other case — in particular when both colliding records have
prices — the earliest-produced record wins (first-write-wins). -/
theorem C2_one_per_domain_first_wins :
    (∀ l : List Entry,
      ((dedupe_by_domain_runner l).map
        (fun e => normalize_domain e.webSitesi)).Nodup)
  ∧ (∀ l : List Entry, ∀ e ∈ l,
      normalize_domain e.webSitesi ∈
        (dedupe_by_domain_runner l).map (fun e => normalize_domain e.webSitesi))
  ∧ (∀ e1 e2 : Entry,
      normalize_domain e1.webSitesi = normalize_domain e2.webSitesi →
      dedupe_by_domain_runner [e1, e2] =
        if hasPriceB e2 = true ∧ hasPriceB e1 = false then [e2] else [e1]) := by
  refine ⟨?_, ?_, ?_⟩
  · intro l
    have hwf := dedupeAux_wf l [] ⟨by simp, by simp⟩
    have : (dedupe_by_domain_runner l).map
        (fun e => normalize_domain e.webSitesi) =
        (dedupeAux [] l).map Prod.fst := by
      rw [dedupe_by_domain_runner, List.map_map]
      exact acc_domains_eq_keys _ hwf.1
    rw [this]
    exact hwf.2
  · intro l e he
    have hwf := dedupeAux_wf l [] ⟨by simp, by simp⟩
    have heq : (dedupe_by_domain_runner l).map
        (fun e => normalize_domain e.webSitesi) =
        (dedupeAux [] l).map Prod.fst := by
      rw [dedupe_by_domain_runner, List.map_map]
      exact acc_domains_eq_keys _ hwf.1
    rw [heq]
    exact dedupeAux_covers l [] e he
  · intro e1 e2 h
    have hf2 : assocFind ([] ++ [(normalize_domain e1.webSitesi, e1)])
        (normalize_domain e2.webSitesi) = some e1 := by
      simp [assocFind, List.find?, ← h]
    simp only [dedupe_by_domain_runner, dedupeAux, assocFind, List.find?,
      List.nil_append] at hf2 ⊢
    rw [hf2]
    by_cases h2 : hasPriceB e2 <;> by_cases h1 : hasPriceB e1 <;>
      simp [h2, h1, assocReplace, ← h]

/-- C2 amended witness: a priced record replaces a colliding price-less
one at a concrete input. -/
theorem C2_one_per_domain_first_wins_witness :
    dedupe_by_domain_runner [dedupeWitA, dedupeWitB] =
      if hasPriceB dedupeWitB = true ∧ hasPriceB dedupeWitA = false
      then [dedupeWitB] else [dedupeWitA] :=
  C2_one_per_domain_first_wins.2.2 dedupeWitA dedupeWitB (by decide)

/-! ## Claim C3 -/

/-- C3 counterexample: the URL `https://x.com/` yields no observations and
has no fallback entry, and the previous dataset holds a record for it; yet
the merged dataset does not contain that record, because another batch URL
(`https://www.x.com/p`) normalizes to the same domain with a priced record
and the domain dedupe drops the carried-forward one. -/
theorem C3_carry_forward_fails_on_collision :
    ("https://x.com/", PriceRes.mk [] []) ∈ c3SR
  ∧ dictGet (pyDict [c3Prev]) "https://x.com/" = some c3Prev
  ∧ lookupRes [] "https://x.com/" = none
  ∧ c3Prev ∉ process_and_save_results quick_force_prices [] [] c3SR [c3Prev] := by
  exact ⟨by decide, by decide, by decide, by decide⟩

/-- C3 amended: a URL with no observations and no fallback that is present
in the previous dataset carries its previous record forward unchanged into
the merged dataset, provided no other record produced in the merge (from
another batch URL or carried forward) shares its normalized domain. -/
theorem C3_carry_forward_unchanged
    (force fallb : List (String × PriceRes)) (logoMap : List (String × String))
    (sr : List (String × PriceRes)) (existing : List Entry)
    (url : String) (prev : Entry)
    (h1 : (url, PriceRes.mk [] []) ∈ sr)
    (h2 : dictGet (pyDict existing) url = some prev)
    (h3 : ∀ e ∈ newData force fallb logoMap sr (pyDict existing), e ≠ prev →
        normalize_domain e.webSitesi ≠ normalize_domain prev.webSitesi) :
    prev ∈ process_and_save_results force fallb logoMap sr existing := by
  have hmem : prev ∈ newData force fallb logoMap sr (pyDict existing) := by
    apply List.mem_append_left
    apply List.mem_flatten.mpr
    refine ⟨[prev], ?_, by simp⟩
    apply List.mem_map.mpr
    refine ⟨(url, PriceRes.mk [] []), h1, ?_⟩
    simp [h2]
  exact dedupe_keeps_unique _ prev hmem h3

/-- C3 amended witness: at a concrete batch with a unique domain, the
previous record survives the merge unchanged. -/
theorem C3_carry_forward_unchanged_witness :
    c3Solo ∈ process_and_save_results [] [] []
      [("https://solo.example/", PriceRes.mk [] [])] [c3Solo] :=
  C3_carry_forward_unchanged [] [] []
    [("https://solo.example/", PriceRes.mk [] [])] [c3Solo]
    "https://solo.example/" c3Solo (by decide) (by decide) (by decide)

/-! ## Claim C4 -/

/-- The rendered tier is never attempted more than once and the static
tier never precedes it: `scrape_with_selenium` attempts at most the
rendered fetch. -/
theorem selenium_trace (env : ScrapeEnv) (url : String) :
    (scrape_with_selenium env url).2 = [] ∨
      (scrape_with_selenium env url).2 = [Tier.rendered] := by
  unfold scrape_with_selenium
  split
  · exact Or.inl rfl
  · split
    · exact Or.inr rfl
    · dsimp only
      split
      · exact Or.inr rfl
      · exact Or.inr rfl

/-- C4 counterexample: a URL outside the JS-site set whose static fetch
succeeds with zero observations is NOT re-fetched with the rendered tier;
the fallback supplies the result directly after the single static
attempt. -/
theorem C4_static_empty_not_rerendered :
    extract_prices_quick ("hos geldiniz".toList) "ac" = []
  ∧ js_sites.contains "https://nosite.example/" = false
  ∧ (scrape_url c4Env "https://nosite.example/").2 = [Tier.static]
  ∧ Tier.rendered ∉ (scrape_url c4Env "https://nosite.example/").2
  ∧ (scrape_url c4Env "https://nosite.example/").1 =
      ⟨[850], [1099], none⟩ := by
  exact ⟨by decide, by decide, by decide, by decide, by decide⟩

/-- C4 amended: page acquisition never escalates between tiers.  A URL in
the JS-site set goes directly to the rendered tier (the static tier is
never attempted for it); any other URL is fetched exactly once with the
static tier; and when that static fetch raises or yields zero
observations the fallback table immediately supplies cached values (or a
price-less result when no entry exists) — there is no rendered re-fetch. -/
theorem C4_tier_chain (env : ScrapeEnv) (url : String) :
    (js_sites.contains url = true →
      Tier.static ∉ (scrape_url env url).2)
  ∧ (js_sites.contains url = false →
      (scrape_url env url).2 = [Tier.static])
  ∧ (js_sites.contains url = false →
      ∀ doc, env.staticPage url = some doc →
      extract_prices_quick doc "ac" = [] →
      extract_prices_quick doc "dc" = [] →
      (scrape_url env url).1 =
        (match lookupRes env.fallback url with
         | some fb => ⟨fb.ac, fb.dc, none⟩
         | none => ⟨[], [], some "no_prices"⟩))
  ∧ (js_sites.contains url = false →
      env.staticPage url = none →
      (scrape_url env url).1 =
        (match lookupRes env.fallback url with
         | some fb => ⟨fb.ac, fb.dc, none⟩
         | none => ⟨[], [], some "error"⟩)) := by
  have hforce : lookupRes quick_force_prices url = none := rfl
  refine ⟨?_, ?_, ?_, ?_⟩
  · intro hjs
    simp only [scrape_url, hforce, hjs, if_true]
    rcases selenium_trace env url with h | h <;> rw [h] <;> simp
  · intro hjs
    simp only [scrape_url, hforce, hjs, Bool.false_eq_true, if_false]
    cases hsp : env.staticPage url with
    | none => rfl
    | some doc =>
      dsimp only
      split
      · rfl
      · rfl
  · intro hjs doc hdoc hac hdc
    simp only [scrape_url, hforce, hjs, Bool.false_eq_true, if_false, hdoc,
      hac, hdc, List.isEmpty_nil, Bool.not_true, Bool.or_self,
      Bool.false_eq_true, if_false]
  · intro hjs hnone
    simp only [scrape_url, hforce, hjs, Bool.false_eq_true, if_false, hnone]

/-- C4 amended witness: the three hypothesis-bearing parts applied at
the concrete environment. -/
theorem C4_tier_chain_witness :
    (scrape_url c4Env "https://nosite.example/").2 = [Tier.static]
  ∧ (scrape_url c4Env "https://nosite.example/").1 =
      (match lookupRes c4Env.fallback "https://nosite.example/" with
       | some fb => ⟨fb.ac, fb.dc, none⟩
       | none => ⟨[], [], some "no_prices"⟩)
  ∧ Tier.static ∉ (scrape_url c4Env "https://www.ecoboxsarj.com/tarifeler").2 :=
  ⟨(C4_tier_chain c4Env "https://nosite.example/").2.1 (by decide),
   (C4_tier_chain c4Env "https://nosite.example/").2.2.1 (by decide)
     ("hos geldiniz".toList) rfl (by decide) (by decide),
   (C4_tier_chain c4Env "https://www.ecoboxsarj.com/tarifeler").1 (by decide)⟩

/-! ## Claim C5 -/

/-- C5: `_extract_prices` ignores its `price_type` argument entirely, so
a successful live scrape reports identical AC and DC price lists. -/
theorem C5_price_type_ignored :
    (∀ (text : Chars) (a b : String),
      extract_prices_quick text a = extract_prices_quick text b)
  ∧ (∀ (env : ScrapeEnv) (url : String),
      ((scrape_url env url).1.status = some "success" ∨
        (scrape_url env url).1.status = some "selenium_success") →
      (scrape_url env url).1.ac = (scrape_url env url).1.dc) := by
  constructor
  · intro text a b; rfl
  · intro env url
    unfold scrape_url scrape_with_selenium
    rw [show lookupRes quick_force_prices url = none from rfl]
    by_cases hjs : js_sites.contains url = true <;> simp only [hjs]
    · by_cases hav : (!env.seleniumAvailable) = true <;> simp [hav]
      · rcases hlk : lookupRes env.fallback url with _ | fb <;> simp
      · cases hsel : env.seleniumPage url <;> dsimp only
        · rcases hlk : lookupRes env.fallback url with _ | fb <;> simp
        · split
          · intro _; rfl
          · rcases hlk : lookupRes env.fallback url with _ | fb <;> simp
    · simp only [Bool.false_eq_true, if_false]
      cases hsp : env.staticPage url <;> dsimp only
      · rcases hlk : lookupRes env.fallback url with _ | fb <;> simp
      · split
        · intro _; rfl
        · rcases hlk : lookupRes env.fallback url with _ | fb <;> simp

/-- C5 witness: a concrete successful static scrape reports the same
list for AC and DC. -/
theorem C5_price_type_ignored_witness :
    (scrape_url c5Env "https://any.example/").1.ac =
      (scrape_url c5Env "https://any.example/").1.dc :=
  C5_price_type_ignored.2 c5Env "https://any.example/" (Or.inl (by decide))

/-! ## Claim C8 -/

set_option maxRecDepth 4000 in
set_option maxHeartbeats 1000000 in
/-- C8: when the context window of a price offset contains both an AC and
a DC power-range pattern, the classifier returns the type whose pattern
ends numerically closer to the offset; on the specification's example the
offset is nearer the DC range end and DC is returned. -/
theorem C8_closer_power_range_end_wins :
    (∀ (text : Chars) (pos acEnd dcEnd : Nat),
      text ≠ [] →
      searchEnd (tryPowerRange ("AC".toList)) (chty_context text pos) =
        some acEnd →
      searchEnd (tryPowerRange ("DC".toList)) (chty_context text pos) =
        some dcEnd →
      extract_charging_type text (some pos) =
        some (if (((acEnd : Int) -
                ((pos : Int) - (chty_context_start pos : Int))).natAbs <
              ((dcEnd : Int) -
                ((pos : Int) - (chty_context_start pos : Int))).natAbs)
          then ChType.AC else ChType.DC))
  ∧ extract_charging_type c8Text (some 45) = some ChType.DC := by
  constructor
  · intro text pos acEnd dcEnd hne hac hdc
    have h1 : extract_charging_type text (some pos) = chty_with_pos text pos := by
      cases text with
      | nil => exact absurd rfl hne
      | cons c rest => rfl
    rw [h1]
    unfold chty_with_pos
    rw [hac, hdc]
  · decide

/-! ## Claims C6 and C7 (code bugs) -/

/-- C6 (code bug): on text containing the full date `18.10.2025`,
`clean_text`'s CSS-selector pass deletes both dots together with the
digits after them, so the cleaned text is `18`; the date-window check can
then never fire, and the bare-integer fallback pattern turns the date's
day into the price 18.0.  The quick-path extractor (whose input is not
cleaned) does reject the date via its five-character lookahead. -/
theorem C6_date_day_extracted_as_price :
    clean_text ("18.10.2025".toList) = "18".toList
  ∧ extract_price_from_text ("18.10.2025".toList) 50 5000 = some 1800
  ∧ extract_prices_quick ("Fiyat listesi 18.10.2025 tarihinde".toList)
      "ac" = [] := by
  exact ⟨by decide, by decide, by decide⟩

/-- C7 (code bug): for `11 - 22 kW AC şarj` the power regex records only
`22` as a power value (the range's lower bound `11` is not adjacent to
`kW`), so the bare number `11` passes the power filter and is returned as
the price 11.0 — the claim's `zero price candidates` fails on the code. -/
theorem C7_power_range_lower_bound_extracted :
    powerValuesOf (clean_text ("11 - 22 kW AC şarj".toList)) = [22]
  ∧ extract_price_from_text ("11 - 22 kW AC şarj".toList) 50 5000 =
      some 1100 := by
  exact ⟨by decide, by decide⟩

/-! ## Claim C10 -/

theorem processMatch_range (t : Chars) (pv : List Nat) (minP maxP : Nat)
    (m : PMatch) (p : Nat) (h : processMatch t pv minP maxP m = some p) :
    minP ≤ p ∧ p ≤ maxP := by
  revert h
  unfold processMatch
  dsimp only
  repeat' split
  all_goals intro h
  all_goals try exact Option.noConfusion h
  all_goals injection h with h2
  all_goals subst h2
  all_goals assumption

theorem collectPrices_range (t : Chars) (pv : List Nat) (minP maxP : Nat)
    (pats : List (Chars → Option PRel)) (p : Nat)
    (h : p ∈ collectPrices t pv minP maxP pats) : minP ≤ p ∧ p ≤ maxP := by
  unfold collectPrices at h
  rw [List.mem_flatten] at h
  obtain ⟨l, hl, hp⟩ := h
  rw [List.mem_map] at hl
  obtain ⟨pat, _, rfl⟩ := hl
  rw [List.mem_filterMap] at hp
  obtain ⟨m, _, hm⟩ := hp
  exact processMatch_range t pv minP maxP m p hm

theorem mem_insertSorted (x y : Nat) (l : List Nat)
    (h : x ∈ insertSorted y l) : x = y ∨ x ∈ l := by
  induction l with
  | nil =>
    simp only [insertSorted, List.mem_singleton] at h
    exact Or.inl h
  | cons z zs ih =>
    unfold insertSorted at h
    split at h
    · rcases List.mem_cons.mp h with rfl | h
      · exact Or.inl rfl
      · exact Or.inr h
    · rcases List.mem_cons.mp h with rfl | h
      · exact Or.inr (List.mem_cons_self _ _)
      · rcases ih h with h | h
        · exact Or.inl h
        · exact Or.inr (List.mem_cons_of_mem _ h)

theorem mem_insertionSort (x : Nat) (l : List Nat)
    (h : x ∈ insertionSort l) : x ∈ l := by
  induction l with
  | nil => simp [insertionSort] at h
  | cons z zs ih =>
    unfold insertionSort at h
    rcases mem_insertSorted x z _ h with rfl | h
    · exact List.mem_cons_self _ _
    · exact List.mem_cons_of_mem _ (ih h)

theorem mem_sortedDedup (x : Nat) (l : List Nat)
    (h : x ∈ sortedDedup l) : x ∈ l :=
  List.mem_dedup.mp (mem_insertionSort x l.dedup h)

/-- C10: `extract_price_from_text` returns `None` or a price inside the
caller's inclusive bounds (defaults 0.5 and 50.0, i.e. 50 and 5000
centi-units), and every price of `QuickScraper._extract_prices` lies in
its configured range 4.0 to 35.0 (400 to 3500 centi-units). -/
theorem C10_extraction_range :
    (∀ (text : Chars) (minP maxP p : Nat),
      extract_price_from_text text minP maxP = some p →
      minP ≤ p ∧ p ≤ maxP)
  ∧ (∀ (text : Chars) (pt : String) (p : Nat),
      p ∈ extract_prices_quick text pt → 400 ≤ p ∧ p ≤ 3500) := by
  constructor
  · intro text minP maxP p h
    unfold extract_price_from_text at h
    split at h
    · simp at h
    · dsimp only at h
      split at h
      · next q rest heq =>
          injection h with h2
          subst h2
          refine collectPrices_range (clean_text text)
            (powerValuesOf (clean_text text)) minP maxP currency_patterns q ?_
          rw [heq]
          exact List.mem_cons_self _ _
      · split at h
        · next q rest heq =>
            injection h with h2
            subst h2
            refine collectPrices_range (clean_text text)
              (powerValuesOf (clean_text text)) minP maxP general_patterns q ?_
            rw [heq]
            exact List.mem_cons_self _ _
        · simp at h
  · intro text pt p h
    unfold extract_prices_quick at h
    dsimp only at h
    have h2 := mem_sortedDedup p _ h
    rw [List.mem_filterMap] at h2
    obtain ⟨m, _, hm⟩ := h2
    split at hm
    · simp at hm
    · split at hm
      · split at hm
        · next hcond =>
            injection hm with h3
            exact h3 ▸ hcond
        · simp at hm
      · simp at hm

/-- C10 witness: at concrete inputs the bounds hold for the extracted
values 8.50 from both extractors. -/
theorem C10_extraction_range_witness :
    ((50 : Nat) ≤ 850 ∧ (850 : Nat) ≤ 5000)
  ∧ ((400 : Nat) ≤ 850 ∧ (850 : Nat) ≤ 3500) :=
  ⟨C10_extraction_range.1 ("8,50 TL".toList) 50 5000 850 (by decide),
   C10_extraction_range.2 ("fiyat 8,50 TL".toList) "ac" 850 (by decide)⟩

/-! ## Claim C9: helper lemmas -/

/-- A `gsub` whose scanner never fires is the identity. -/
theorem gsubAux_id (tryAt : Chars → Option Nat) (P : Char → Prop)
    (htry : ∀ t : Chars, (∀ c ∈ t, P c) → tryAt t = none) :
    ∀ (fuel : Nat) (s : Chars), (∀ c ∈ s, P c) →
      gsubAux tryAt fuel s = s := by
  intro fuel
  induction fuel with
  | zero => intro s _; rfl
  | succ n ih =>
    intro s hs
    cases s with
    | nil => rfl
    | cons c rest =>
      unfold gsubAux
      rw [htry _ hs, ih rest (fun d hd => hs d (List.mem_cons_of_mem c hd))]

theorem gsub_id (tryAt : Chars → Option Nat) (P : Char → Prop)
    (htry : ∀ t : Chars, (∀ c ∈ t, P c) → tryAt t = none)
    (s : Chars) (hs : ∀ c ∈ s, P c) : gsub tryAt s = s :=
  gsubAux_id tryAt P htry s.length s hs

/-- A scanner whose result implies a character occurrence fails on texts
without that character. -/
theorem try_none_of_inv {tryAt : Chars → Option Nat} {bad : Char}
    (hinv : ∀ t n, tryAt t = some n → bad ∈ t) (t : Chars)
    (h : ∀ c ∈ t, c ≠ bad) : tryAt t = none := by
  cases ht : tryAt t with
  | none => rfl
  | some n => exact absurd rfl (h bad (hinv t n ht))

theorem tryScript_none (t : Chars) (h : ∀ c ∈ t, c ≠ '<') :
    tryScript t = none := by
  cases t with
  | nil => rfl
  | cons c rest =>
    unfold tryScript
    exact if_neg (h c (List.mem_cons_self c rest))

theorem tryStyle_none (t : Chars) (h : ∀ c ∈ t, c ≠ '<') :
    tryStyle t = none := by
  cases t with
  | nil => rfl
  | cons c rest =>
    unfold tryStyle
    exact if_neg (h c (List.mem_cons_self c rest))

theorem tryBraces_none (t : Chars) (h : ∀ c ∈ t, c ≠ '{') :
    tryBraces t = none := by
  cases t with
  | nil => rfl
  | cons c rest =>
    unfold tryBraces
    exact if_neg (h c (List.mem_cons_self c rest))

theorem tryCssClass_none (t : Chars) (h : ∀ c ∈ t, c ≠ '.') :
    tryCssClass t = none := by
  cases t with
  | nil => rfl
  | cons c rest =>
    unfold tryCssClass
    exact if_neg (h c (List.mem_cons_self c rest))

theorem tryDunder_none (t : Chars) (h : ∀ c ∈ t, c ≠ '_') :
    tryDunder t = none := by
  cases t with
  | nil => rfl
  | cons c rest =>
    cases rest with
    | nil => rfl
    | cons c2 r2 =>
      unfold tryDunder
      exact if_neg (fun hc => h c (List.mem_cons_self _ _) hc.1)

theorem tryCssSel_none (t : Chars) (h : ∀ c ∈ t, c ≠ '.' ∧ c ≠ '#') :
    tryCssSel t = none := by
  cases t with
  | nil => rfl
  | cons c rest =>
    unfold tryCssSel
    refine if_neg (fun hc => ?_)
    rcases hc with hc | hc
    · exact (h c (List.mem_cons_self _ _)).1 hc
    · exact (h c (List.mem_cons_self _ _)).2 hc

theorem scanToCharNoNl_mem (stop : Char) (s : Chars) (n : Nat)
    (h : scanToCharNoNl stop s = some n) : stop ∈ s := by
  induction s generalizing n with
  | nil => simp [scanToCharNoNl] at h
  | cons c rest ih =>
    unfold scanToCharNoNl at h
    split at h
    · next hc => exact hc ▸ List.mem_cons_self _ _
    · split at h
      · simp at h
      · cases hn : scanToCharNoNl stop rest with
        | none => rw [hn] at h; simp at h
        | some m => exact List.mem_cons_of_mem _ (ih m hn)

theorem scanToChar_mem (stop : Char) (s : Chars) (n : Nat)
    (h : scanToChar stop s = some n) : stop ∈ s := by
  induction s generalizing n with
  | nil => simp [scanToChar] at h
  | cons c rest ih =>
    unfold scanToChar at h
    split at h
    · next hc => exact hc ▸ List.mem_cons_self _ _
    · cases hn : scanToChar stop rest with
      | none => rw [hn] at h; simp at h
      | some m => exact List.mem_cons_of_mem _ (ih m hn)

theorem tryVar_inv (t : Chars) (n : Nat) (h : tryVar t = some n) :
    '=' ∈ t := by
  unfold tryVar at h
  split at h
  · simp at h
  · dsimp only at h
    split at h
    · simp at h
    · split at h
      · simp at h
      · split at h
        · next heq =>
            have h0 := heq.symm ▸ List.mem_cons_self '=' _
            exact List.drop_subset _ _ (List.drop_subset _ _
              (List.drop_subset _ _ (List.drop_subset _ _ h0)))
        · simp at h

theorem tryFunction_inv (t : Chars) (n : Nat) (h : tryFunction t = some n) :
    '{' ∈ t := by
  unfold tryFunction at h
  split at h
  · simp at h
  · dsimp only at h
    split at h
    · simp at h
    · split at h
      · simp at h
      · split at h
        · simp at h
        · next y hy =>
            have h0 := scanToChar_mem '{' _ y hy
            exact List.drop_subset _ _ (List.drop_subset _ _
              (List.drop_subset _ _ h0))

theorem tryClassAttr_inv (t : Chars) (n : Nat) (h : tryClassAttr t = some n) :
    '=' ∈ t := by
  unfold tryClassAttr at h
  split at h
  · simp at h
  · split at h
    · next heq =>
        have h0 := heq.symm ▸ List.mem_cons_self '=' _
        exact List.drop_subset _ _ h0
    · simp at h

theorem tryDataAttr_inv (t : Chars) (n : Nat) (h : tryDataAttr t = some n) :
    '=' ∈ t := by
  unfold tryDataAttr at h
  dsimp only at h
  split at h
  · simp at h
  · split at h
    · simp at h
    · split at h
      · next heq =>
          have h0 := heq.symm ▸ List.mem_cons_self '=' _
          exact List.drop_subset _ _ (List.drop_subset _ _
            (List.drop_subset _ _ h0))
      · simp at h

/-- Every field produced by the split fold is whitespace-free and drawn
from the input. -/
theorem splitFold_chars (s : Chars) :
    ∀ w ∈ s.foldr splitStep [], ∀ c ∈ w, isWsChar c = false ∧ c ∈ s := by
  induction s with
  | nil => intro w hw; simp at hw
  | cons a rest ih =>
    intro w hw c hc
    rw [List.foldr_cons] at hw
    generalize hacc : List.foldr splitStep [] rest = acc at hw ih
    by_cases hv : isWsChar a = true
    · rw [show splitStep a acc = [] :: acc from by simp [splitStep, hv]] at hw
      rcases List.mem_cons.mp hw with h1 | h1
      · rw [h1] at hc; simp at hc
      · obtain ⟨h2, h3⟩ := ih w h1 c hc
        exact ⟨h2, List.mem_cons_of_mem a h3⟩
    · have hwsf : isWsChar a = false := by
        cases hvv : isWsChar a with
        | false => rfl
        | true => exact absurd hvv hv
      cases acc with
      | nil =>
        rw [show splitStep a [] = [[a]] from by simp [splitStep, hwsf]] at hw
        have h1 := List.mem_singleton.mp hw
        rw [h1] at hc
        have hca := List.mem_singleton.mp hc
        rw [hca]
        exact ⟨hwsf, List.mem_cons_self a rest⟩
      | cons w0 rest0 =>
        rw [show splitStep a (w0 :: rest0) = (a :: w0) :: rest0 from by
          simp [splitStep, hwsf]] at hw
        rcases List.mem_cons.mp hw with h1 | h1
        · rw [h1] at hc
          rcases List.mem_cons.mp hc with hca | hcw
          · rw [hca]
            exact ⟨hwsf, List.mem_cons_self a rest⟩
          · obtain ⟨h2, h3⟩ := ih w0 (List.mem_cons_self w0 rest0) c hcw
            exact ⟨h2, List.mem_cons_of_mem a h3⟩
        · obtain ⟨h2, h3⟩ := ih w (List.mem_cons_of_mem w0 h1) c hc
          exact ⟨h2, List.mem_cons_of_mem a h3⟩

/-- Every word of `wordsOf s` is nonempty, whitespace-free, and its
characters come from `s`. -/
theorem wordsOf_good (s : Chars) :
    ∀ w ∈ wordsOf s, w ≠ [] ∧ ∀ c ∈ w, isWsChar c = false ∧ c ∈ s := by
  intro w hw
  unfold wordsOf at hw
  rw [List.mem_filter] at hw
  refine ⟨fun hnil => ?_, fun c hc => splitFold_chars s w hw.1 c hc⟩
  rw [hnil] at hw
  simp at hw

/-- Folding the split step over a nonempty whitespace-free word against an
empty accumulator yields just that word. -/
theorem splitFold_word_nil (w : Chars) (hne : w ≠ [])
    (hns : ∀ c ∈ w, isWsChar c = false) :
    w.foldr splitStep [] = [w] := by
  induction w with
  | nil => exact absurd rfl hne
  | cons a w ih =>
    rw [List.foldr_cons]
    cases w with
    | nil => simp [splitStep, hns a (List.mem_cons_self a [])]
    | cons b w2 =>
      rw [ih (by simp) (fun c hc => hns c (List.mem_cons_of_mem a hc))]
      simp [splitStep, hns a (List.mem_cons_self _ _)]

/-- Folding the split step over a nonempty whitespace-free word against a
started accumulator prepends the word to its first field. -/
theorem splitFold_word_cons (w : Chars) (hne : w ≠ [])
    (hns : ∀ c ∈ w, isWsChar c = false) (a0 : Chars) (acc : List Chars) :
    w.foldr splitStep (a0 :: acc) = (w ++ a0) :: acc := by
  induction w with
  | nil => exact absurd rfl hne
  | cons a w ih =>
    rw [List.foldr_cons]
    cases w with
    | nil => simp [splitStep, hns a (List.mem_cons_self a [])]
    | cons b w2 =>
      rw [ih (by simp) (fun c hc => hns c (List.mem_cons_of_mem a hc))]
      simp [splitStep, hns a (List.mem_cons_self _ _)]

/-- Splitting the space-join of nonempty whitespace-free words recovers
exactly those words (at the level of the raw fold). -/
theorem splitFold_joinSp (ws : List Chars)
    (hg : ∀ w ∈ ws, w ≠ [] ∧ ∀ c ∈ w, isWsChar c = false) :
    (joinSp ws).foldr splitStep [] = ws := by
  induction ws with
  | nil => rfl
  | cons w ws ih =>
    cases ws with
    | nil =>
      obtain ⟨hne, hns⟩ := hg w (List.mem_cons_self w [])
      exact splitFold_word_nil w hne hns
    | cons w2 ws2 =>
      obtain ⟨hne, hns⟩ := hg w (List.mem_cons_self _ _)
      have hj : joinSp (w :: w2 :: ws2) = w ++ ' ' :: joinSp (w2 :: ws2) := rfl
      have hsptrue : isWsChar ' ' = true := by decide
      rw [hj, List.foldr_append, List.foldr_cons,
        ih (fun x hx => hg x (List.mem_cons_of_mem w hx))]
      have hsp : splitStep ' ' (w2 :: ws2) = [] :: w2 :: ws2 := by
        simp [splitStep, hsptrue]
      rw [hsp, splitFold_word_cons w hne hns [] (w2 :: ws2)]
      simp

/-- The round trip: `str.split` of `' '.join(ws)` is `ws` for nonempty
whitespace-free words. -/
theorem wordsOf_joinSp (ws : List Chars)
    (hg : ∀ w ∈ ws, w ≠ [] ∧ ∀ c ∈ w, isWsChar c = false) :
    wordsOf (joinSp ws) = ws := by
  unfold wordsOf
  rw [splitFold_joinSp ws hg]
  refine List.filter_eq_self.mpr (fun w hw => ?_)
  obtain ⟨hne, _⟩ := hg w hw
  cases w with
  | nil => exact absurd rfl hne
  | cons a l => rfl

/-- The space-join of nonempty words is nonempty. -/
theorem joinSp_ne_nil (ws : List Chars) (hne : ws ≠ [])
    (hg : ∀ w ∈ ws, w ≠ []) : joinSp ws ≠ [] := by
  cases ws with
  | nil => exact absurd rfl hne
  | cons w ws =>
    cases ws with
    | nil => exact hg w (List.mem_cons_self _ _)
    | cons w2 ws2 =>
      show w ++ ' ' :: joinSp (w2 :: ws2) ≠ []
      simp

/-- A value delivered by `getLast?` is a member of the list. -/
theorem mem_of_getLastQ (l : Chars) (c : Char) (h : l.getLast? = some c) :
    c ∈ l := by
  induction l with
  | nil => simp at h
  | cons a l ih =>
    cases l with
    | nil =>
      rw [List.getLast?_singleton, Option.some.injEq] at h
      rw [← h]
      exact List.mem_cons_self a []
    | cons b l2 =>
      rw [List.getLast?_cons_cons] at h
      exact List.mem_cons_of_mem a (ih h)

/-- The last element of an append ending in a nonempty list is the last
element of that suffix. -/
theorem getLastQ_append_cons (l1 : Chars) (a : Char) (l2 : Chars) :
    (l1 ++ a :: l2).getLast? = (a :: l2).getLast? := by
  induction l1 with
  | nil => rfl
  | cons c l ih =>
    rw [List.cons_append]
    cases hl : l ++ a :: l2 with
    | nil => simp at hl
    | cons d r =>
      rw [List.getLast?_cons_cons, ← hl, ih]

/-- The first character of a space-join of nonempty whitespace-free words
is not whitespace. -/
theorem joinSp_head_nonWs (ws : List Chars)
    (hg : ∀ w ∈ ws, w ≠ [] ∧ ∀ c ∈ w, isWsChar c = false)
    (c : Char) (h : (joinSp ws).head? = some c) : isWsChar c = false := by
  cases ws with
  | nil => exact Option.noConfusion h
  | cons w ws =>
    obtain ⟨hne, hns⟩ := hg w (List.mem_cons_self _ _)
    cases w with
    | nil => exact absurd rfl hne
    | cons a w2 =>
      cases ws with
      | nil =>
        have h2 : some a = some c := h
        rw [Option.some.injEq] at h2
        rw [← h2]
        exact hns a (List.mem_cons_self _ _)
      | cons wb ws2 =>
        have h2 : some a = some c := h
        rw [Option.some.injEq] at h2
        rw [← h2]
        exact hns a (List.mem_cons_self _ _)

/-- The last character of a space-join of nonempty whitespace-free words
is not whitespace. -/
theorem joinSp_last_nonWs (ws : List Chars)
    (hg : ∀ w ∈ ws, w ≠ [] ∧ ∀ c ∈ w, isWsChar c = false)
    (c : Char) (h : (joinSp ws).getLast? = some c) : isWsChar c = false := by
  induction ws with
  | nil => exact Option.noConfusion h
  | cons w ws ih =>
    cases ws with
    | nil =>
      have h2 : w.getLast? = some c := h
      obtain ⟨hne, hns⟩ := hg w (List.mem_cons_self _ _)
      exact hns c (mem_of_getLastQ w c h2)
    | cons w2 ws2 =>
      have h2 : (w ++ ' ' :: joinSp (w2 :: ws2)).getLast? = some c := h
      rw [getLastQ_append_cons] at h2
      have hjne : joinSp (w2 :: ws2) ≠ [] :=
        joinSp_ne_nil (w2 :: ws2) (by simp)
          (fun x hx => (hg x (List.mem_cons_of_mem w hx)).1)
      cases hj : joinSp (w2 :: ws2) with
      | nil => exact absurd hj hjne
      | cons d r =>
        rw [hj, List.getLast?_cons_cons] at h2
        apply ih (fun x hx => hg x (List.mem_cons_of_mem w hx))
        rw [hj]
        exact h2

/-- A `dropWhile` whose predicate rejects the head is the identity. -/
theorem dropWhile_eq_self_of_head (p : Char → Bool) (l : Chars)
    (h : ∀ c, l.head? = some c → p c = false) : l.dropWhile p = l := by
  cases l with
  | nil => rfl
  | cons a l =>
    rw [List.dropWhile_cons]
    simp [h a rfl]

/-- Python `strip` is the identity when neither end is whitespace. -/
theorem pyStrip_noop (s : Chars)
    (hh : ∀ c, s.head? = some c → isWsChar c = false)
    (hl : ∀ c, s.getLast? = some c → isWsChar c = false) :
    pyStrip s = s := by
  unfold pyStrip
  rw [dropWhile_eq_self_of_head isWsChar s hh]
  rw [dropWhile_eq_self_of_head isWsChar s.reverse
    (fun c hc => hl c (by rw [← List.head?_reverse]; exact hc))]
  exact List.reverse_reverse s

/-- The filtered word list of a text is nonempty-and-whitespace-free. -/
theorem wordsOf_filter_good (t : Chars) :
    ∀ w ∈ (wordsOf t).filter (fun w => w.length < 50),
      w ≠ [] ∧ ∀ c ∈ w, isWsChar c = false := by
  intro w hw
  have hw2 := List.mem_of_mem_filter hw
  exact ⟨(wordsOf_good t w hw2).1,
    fun c hc => ((wordsOf_good t w hw2).2 c hc).1⟩

/-- The final normalization of `clean_text` in closed form: join the
words of the input shorter than 50 characters with single spaces. -/
theorem tailNorm_eq (t : Chars) :
    tailNorm t = joinSp ((wordsOf t).filter (fun w => w.length < 50)) := by
  unfold tailNorm
  dsimp only
  rw [wordsOf_joinSp (wordsOf t) (fun w hw => ⟨(wordsOf_good t w hw).1,
    fun c hc => ((wordsOf_good t w hw).2 c hc).1⟩)]
  exact pyStrip_noop _ (joinSp_head_nonWs _ (wordsOf_filter_good t))
    (joinSp_last_nonWs _ (wordsOf_filter_good t))

/-- The final normalization of `clean_text` is idempotent. -/
theorem tailNorm_idem (t : Chars) : tailNorm (tailNorm t) = tailNorm t := by
  rw [tailNorm_eq (tailNorm t)]
  rw [tailNorm_eq t]
  rw [wordsOf_joinSp _ (wordsOf_filter_good t)]
  rw [List.filter_eq_self.mpr (fun w hw => (List.mem_filter.mp hw).2)]

/-- A character of a space-join is a space or comes from one of the
words. -/
theorem mem_joinSp (ws : List Chars) (c : Char) (hc : c ∈ joinSp ws) :
    c = ' ' ∨ ∃ w ∈ ws, c ∈ w := by
  induction ws with
  | nil => exact absurd hc (List.not_mem_nil c)
  | cons w ws ih =>
    cases ws with
    | nil => exact Or.inr ⟨w, List.mem_cons_self _ _, hc⟩
    | cons w2 ws2 =>
      have hc2 : c ∈ w ++ ' ' :: joinSp (w2 :: ws2) := hc
      rcases List.mem_append.mp hc2 with h1 | h1
      · exact Or.inr ⟨w, List.mem_cons_self _ _, h1⟩
      · rcases List.mem_cons.mp h1 with h2 | h2
        · exact Or.inl h2
        · rcases ih h2 with h3 | ⟨w3, hw3, hcw⟩
          · exact Or.inl h3
          · exact Or.inr ⟨w3, List.mem_cons_of_mem w hw3, hcw⟩

/-- A character of the normalized text is a space or comes from the
input. -/
theorem mem_tailNorm (t : Chars) (c : Char) (hc : c ∈ tailNorm t) :
    c = ' ' ∨ c ∈ t := by
  rw [tailNorm_eq t] at hc
  rcases mem_joinSp _ c hc with h1 | ⟨w, hw, hcw⟩
  · exact Or.inl h1
  · have hw2 := List.mem_of_mem_filter hw
    exact Or.inr (((wordsOf_good t w hw2).2 c hcw).2)

/-- Normalization preserves freedom from the noise-trigger characters. -/
theorem noiseFree_tailNorm (s : Chars) (h : noiseFree s) :
    noiseFree (tailNorm s) := by
  intro c hc
  rcases mem_tailNorm s c hc with h1 | h1
  · rw [h1]; decide
  · exact h c h1

/-- Unpacking membership in the noise-trigger character list. -/
theorem not_bad_ne (c : Char) (h : c ∉ badChars) :
    c ≠ '<' ∧ c ≠ '{' ∧ c ≠ '.' ∧ c ≠ '#' ∧ c ≠ '_' ∧ c ≠ '=' := by
  simp [badChars] at h
  exact h

/-- On noise-free text every deletion pass of `clean_text` is the
identity, so `clean_text` reduces to the final normalization. -/
theorem clean_text_of_noiseFree (s : Chars) (h : noiseFree s) :
    clean_text s = tailNorm s := by
  by_cases hs : s = []
  · rw [hs]; decide
  · have hS : gsub tryScript s = s :=
      gsub_id _ (fun c => c ∉ badChars)
        (fun t ht => tryScript_none t
          (fun c hc => (not_bad_ne c (ht c hc)).1)) s h
    have hSt : gsub tryStyle s = s :=
      gsub_id _ (fun c => c ∉ badChars)
        (fun t ht => tryStyle_none t
          (fun c hc => (not_bad_ne c (ht c hc)).1)) s h
    have hB : gsub tryBraces s = s :=
      gsub_id _ (fun c => c ∉ badChars)
        (fun t ht => tryBraces_none t
          (fun c hc => (not_bad_ne c (ht c hc)).2.1)) s h
    have hCC : gsub tryCssClass s = s :=
      gsub_id _ (fun c => c ∉ badChars)
        (fun t ht => tryCssClass_none t
          (fun c hc => (not_bad_ne c (ht c hc)).2.2.1)) s h
    have hV : gsub tryVar s = s :=
      gsub_id _ (fun c => c ∉ badChars)
        (fun t ht => try_none_of_inv tryVar_inv t
          (fun c hc => (not_bad_ne c (ht c hc)).2.2.2.2.2)) s h
    have hF : gsub tryFunction s = s :=
      gsub_id _ (fun c => c ∉ badChars)
        (fun t ht => try_none_of_inv tryFunction_inv t
          (fun c hc => (not_bad_ne c (ht c hc)).2.1)) s h
    have hD : gsub tryDunder s = s :=
      gsub_id _ (fun c => c ∉ badChars)
        (fun t ht => tryDunder_none t
          (fun c hc => (not_bad_ne c (ht c hc)).2.2.2.2.1)) s h
    have hCS : gsub tryCssSel s = s :=
      gsub_id _ (fun c => c ∉ badChars)
        (fun t ht => tryCssSel_none t
          (fun c hc => ⟨(not_bad_ne c (ht c hc)).2.2.1,
            (not_bad_ne c (ht c hc)).2.2.2.1⟩)) s h
    have hCA : gsub tryClassAttr s = s :=
      gsub_id _ (fun c => c ∉ badChars)
        (fun t ht => try_none_of_inv tryClassAttr_inv t
          (fun c hc => (not_bad_ne c (ht c hc)).2.2.2.2.2)) s h
    have hDA : gsub tryDataAttr s = s :=
      gsub_id _ (fun c => c ∉ badChars)
        (fun t ht => try_none_of_inv tryDataAttr_inv t
          (fun c hc => (not_bad_ne c (ht c hc)).2.2.2.2.2)) s h
    unfold clean_text
    rw [if_neg (fun hcon => hs (List.isEmpty_iff.mp hcon))]
    dsimp only
    rw [hS, hSt, hB, hCC, hV, hF, hD, hCS, hCA, hDA]

/-- C8 witness: the general tie-break rule applied at the concrete
example (the AC range ends at 13, the DC range at 33, the offset is 45). -/
theorem C8_closer_power_range_end_wins_witness :
    extract_charging_type c8Text (some 45) =
      some (if ((((13 : Nat) : Int) -
              ((45 : Int) - (chty_context_start 45 : Int))).natAbs <
            (((33 : Nat) : Int) -
              ((45 : Int) - (chty_context_start 45 : Int))).natAbs)
        then ChType.AC else ChType.DC) :=
  C8_closer_power_range_end_wins.1 c8Text 45 13 33 (by decide) (by decide)
    (by decide)

/-- C9 counterexample: `clean_text` is not idempotent.  Deleting the CSS
block of the input assembles a script tag that only the second pass can
remove, so cleaning twice differs from cleaning once. -/
theorem C9_clean_text_not_idempotent :
    clean_text (clean_text ("<script>A</scri\x7bq\x7dpt> B".toList)) ≠
      clean_text ("<script>A</scri\x7bq\x7dpt> B".toList) := by
  decide

/-- C9 (amended): on text containing none of the noise-trigger characters
of the deletion regexes (no angle bracket, opening brace, dot, hash,
underscore or equals sign) every deletion pass is the identity, and the
remaining whitespace normalization is idempotent, so applying
`clean_text` to its own output returns that output unchanged. -/
theorem C9_clean_text_idem_on_noise_free (s : Chars) (h : noiseFree s) :
    clean_text (clean_text s) = clean_text s := by
  rw [clean_text_of_noiseFree s h]
  rw [clean_text_of_noiseFree (tailNorm s) (noiseFree_tailNorm s h)]
  exact tailNorm_idem s

/-- C9 witness: the amended idempotence at a concrete noise-free input. -/
theorem C9_clean_text_idem_on_noise_free_witness :
    clean_text (clean_text ("fiyat   8,50 TL".toList)) =
      clean_text ("fiyat   8,50 TL".toList) :=
  C9_clean_text_idem_on_noise_free ("fiyat   8,50 TL".toList)
    (by unfold noiseFree; decide)

end SarjFiyat
